import Mathlib

/-!
Verification of the streaming presentation-markup parser
(`src/frontend/lib/slideParser.ts`, class `SlideParser`) and the
deck-to-PPTX serializer (`pptxConverter`, `exportToPPTX` and helpers).

Strings are embedded as `List Char` (JS strings are sequences of UTF-16
units; all markup handled here is plain text, and every string operation
used by the source — `indexOf`, `substring`, `startsWith`, `endsWith`,
`includes`, `trim`, `toUpperCase` — is modelled index-by-index on the
character list).  Randomness (`generateId`) is embedded as a fresh-name
counter threaded through the parser state: each call yields a value
distinct from all earlier ones, which is the only property the source
relies on.  Geometry numbers (JS doubles) are embedded as rationals;
`Math.cos`/`Math.sin` are abstract function parameters, since no claim
depends on their values.
-/

/-- Characters of a string literal, the representation of JS strings here. -/
def strOf (s : String) : List Char := s.toList

/-- JS string model: a list of characters. -/
abbrev Str := List Char

/-- Scanning helper of `indexOf`: try each suffix of `l` in turn,
`i` being the position of `l` in the original string. -/
def findFromAux (pat : Str) : Str → Nat → Option Nat
  | l, i =>
    if pat.isPrefixOf l then some i
    else
      match l with
      | [] => none
      | _ :: r => findFromAux pat r (i + 1)

/-- JS `s.indexOf(pat, start)`, as an option instead of `-1`. -/
def findFrom (s pat : Str) (start : Nat) : Option Nat :=
  if s.length < start then none
  else findFromAux pat (s.drop start) start

/-- JS `s.substring(a, b)` for the in-range, ordered calls the source makes. -/
def subS (s : Str) (a b : Nat) : Str := (s.take b).drop a

/-- JS `s.substring(a)`. -/
def dropS (s : Str) (a : Nat) : Str := s.drop a

/-- JS `pre + s` begins-with test (`startsWith`). -/
def startsWithS (pre s : Str) : Bool := List.isPrefixOf pre s

/-- JS `endsWith`. -/
def endsWithS (suf s : Str) : Bool := List.isSuffixOf suf s

/-- JS `includes`. -/
def containsS (s pat : Str) : Bool := (findFrom s pat 0).isSome

/-- Whitespace recognized by the JS `trim` calls made on this markup. -/
def isWhite (c : Char) : Bool :=
  c = Char.ofNat 32 || c = Char.ofNat 9 || c = Char.ofNat 10 || c = Char.ofNat 13

/-- JS `s.trim()`. -/
def trimS (s : Str) : Str :=
  ((s.dropWhile isWhite).reverse.dropWhile isWhite).reverse

/-- JS `s.toUpperCase()` on the ASCII tag names used by this markup. -/
def toUpperS (s : Str) : Str := s.map Char.toUpper

/-- JS `s.replace(pat, "")` (first occurrence only). -/
def removeFirstS (s pat : Str) : Str :=
  match findFrom s pat 0 with
  | none => s
  | some p => s.take p ++ s.drop (p + pat.length)

theorem findFromAux_spec (pat : Str) :
    ∀ l i p, findFromAux pat l i = some p →
      i ≤ p ∧ p ≤ i + l.length ∧ pat.isPrefixOf (l.drop (p - i)) = true := by
  intro l
  induction l with
  | nil =>
    intro i p h
    rw [findFromAux] at h
    split at h
    · rename_i hpre
      cases h
      exact ⟨le_refl _, by simp, by simpa using hpre⟩
    · simp at h
  | cons c r ih =>
    intro i p h
    rw [findFromAux] at h
    split at h
    · rename_i hpre
      cases h
      exact ⟨le_refl _, by simp, by simpa using hpre⟩
    · have hr := ih (i + 1) p h
      refine ⟨by omega, by simp; omega, ?_⟩
      have hd : (c :: r).drop (p - i) = r.drop (p - (i + 1)) := by
        have he : p - i = (p - (i + 1)) + 1 := by omega
        rw [he]
        rfl
      rw [hd]
      exact hr.2.2

theorem findFromAux_complete (pat : Str) :
    ∀ l j, j ≤ l.length → pat.isPrefixOf (l.drop j) = true →
      ∀ i, (findFromAux pat l i).isSome = true := by
  intro l
  induction l with
  | nil =>
    intro j hj hpre i
    rw [findFromAux]
    have hj0 : j = 0 := by simpa using hj
    subst hj0
    simp only [List.drop_nil] at hpre
    simp [hpre]
  | cons c r ih =>
    intro j hj hpre i
    rw [findFromAux]
    split
    · rfl
    · rename_i hnpre
      cases j with
      | zero => exact absurd hpre hnpre
      | succ j1 => exact ih j1 (by simpa using hj) hpre (i + 1)

theorem findFrom_start_le (s pat : Str) (start p : Nat)
    (h : findFrom s pat start = some p) : start ≤ p ∧ p ≤ s.length := by
  unfold findFrom at h
  split at h
  · simp at h
  · rename_i hle
    have hs := findFromAux_spec pat (s.drop start) start p h
    have hlen : (s.drop start).length = s.length - start := List.length_drop _ _
    omega

theorem findFrom_isPre (s pat : Str) (start p : Nat)
    (h : findFrom s pat start = some p) : pat.isPrefixOf (s.drop p) = true := by
  unfold findFrom at h
  split at h
  · simp at h
  · rename_i hle
    have hs := findFromAux_spec pat (s.drop start) start p h
    have hd : (s.drop start).drop (p - start) = s.drop p := by
      rw [List.drop_drop]
      congr 1
      omega
    rw [hd] at hs
    exact hs.2.2

theorem findFrom_lt_length (s pat : Str) (start p : Nat)
    (hne : pat ≠ []) (h : findFrom s pat start = some p) : p < s.length := by
  have hpre := findFrom_isPre s pat start p h
  have hle := (findFrom_start_le s pat start p h).2
  rcases Nat.lt_or_ge p s.length with hlt | hge
  · exact hlt
  · exfalso
    have hdrop : s.drop p = [] := List.drop_eq_nil_of_le hge
    rw [hdrop] at hpre
    cases pat with
    | nil => exact hne rfl
    | cons a l => simp [List.isPrefixOf] at hpre

theorem findFrom_complete (s pat : Str) (p : Nat) (h2 : p ≤ s.length)
    (h3 : pat.isPrefixOf (s.drop p) = true) (start : Nat) (h1 : start ≤ p) :
    (findFrom s pat start).isSome = true := by
  unfold findFrom
  split
  · omega
  · rename_i hle
    have hd : (s.drop start).drop (p - start) = s.drop p := by
      rw [List.drop_drop]
      congr 1
      omega
    apply findFromAux_complete pat (s.drop start) (p - start)
    · have hlen : (s.drop start).length = s.length - start := List.length_drop _ _
      omega
    · rw [hd]
      exact h3

theorem dropWhile_length_le (p : Char → Bool) (l : List Char) :
    (l.dropWhile p).length ≤ l.length := by
  induction l with
  | nil => simp
  | cons a t ih =>
    rw [List.dropWhile]
    split
    · exact Nat.le_succ_of_le ih
    · simp

theorem trimS_length_le (s : Str) : (trimS s).length ≤ s.length := by
  unfold trimS
  have h1 : (s.dropWhile isWhite).length ≤ s.length := dropWhile_length_le _ _
  have h2 : ((s.dropWhile isWhite).reverse.dropWhile isWhite).length ≤
      (s.dropWhile isWhite).reverse.length := dropWhile_length_le _ _
  simp only [List.length_reverse] at *
  omega

/-- Attribute record of a tree node: key/value pairs in insertion order,
assignment overwrites in place as a JS object does. -/
abbrev AttrMap := List (Str × Str)

/-- JS `obj[k] = v` on a string-keyed object. -/
def setAttr (m : AttrMap) (k v : Str) : AttrMap :=
  match m with
  | [] => [(k, v)]
  | (k1, v1) :: rest => if k1 = k then (k, v) :: rest else (k1, v1) :: setAttr rest k v

/-- JS `obj[k]` read, `none` for a missing key. -/
def getAttr (m : AttrMap) (k : Str) : Option Str :=
  match m with
  | [] => none
  | (k1, v1) :: rest => if k1 = k then some v1 else getAttr rest k

/-- JS `obj[k] || ""` (empty string for a missing key). -/
def getAttrD (m : AttrMap) (k : Str) : Str := (getAttr m k).getD []

/-- Double quote character. -/
def quoteDbl : Char := Char.ofNat 34

/-- Single quote character. -/
def quoteSgl : Char := Char.ofNat 39

/-- Attribute scanning loop of `SlideParser.parseElement`: accepts
`k="v"`, `k='v'` and unquoted space-terminated `k=v` pairs.  The loop
variable `attrRemaining` shrinks by at least one character per round, so
a fuel of `length + 1` is always sufficient (`parseAttrsF_congr`);
`trimS (subS r 0 eqIdx)` is the attribute name and
`trimS (dropS r (eqIdx + 1))` the remainder after the `=` sign. -/
def parseAttrsF : Nat → Str → AttrMap → AttrMap
  | 0, _, acc => acc
  | fuel + 1, r, acc =>
    if r.length = 0 then acc
    else
      match findFrom r [Char.ofNat 61] 0 with
      | none => acc
      | some eqIdx =>
        match (trimS (dropS r (eqIdx + 1))).head? with
        | some q =>
          if q = quoteDbl ∨ q = quoteSgl then
            match findFrom (trimS (dropS r (eqIdx + 1))) [q] 1 with
            | some endQ =>
              parseAttrsF fuel (trimS (dropS (trimS (dropS r (eqIdx + 1))) (endQ + 1)))
                (setAttr acc (trimS (subS r 0 eqIdx))
                  (subS (trimS (dropS r (eqIdx + 1))) 1 endQ))
            | none =>
              setAttr acc (trimS (subS r 0 eqIdx)) (dropS (trimS (dropS r (eqIdx + 1))) 1)
          else
            match findFrom (trimS (dropS r (eqIdx + 1))) [Char.ofNat 32] 0 with
            | some sp =>
              parseAttrsF fuel (trimS (dropS (trimS (dropS r (eqIdx + 1))) (sp + 1)))
                (setAttr acc (trimS (subS r 0 eqIdx))
                  (subS (trimS (dropS r (eqIdx + 1))) 0 sp))
            | none =>
              setAttr acc (trimS (subS r 0 eqIdx)) (trimS (dropS r (eqIdx + 1)))
        | none =>
          match findFrom (trimS (dropS r (eqIdx + 1))) [Char.ofNat 32] 0 with
          | some sp =>
            parseAttrsF fuel (trimS (dropS (trimS (dropS r (eqIdx + 1))) (sp + 1)))
              (setAttr acc (trimS (subS r 0 eqIdx))
                (subS (trimS (dropS r (eqIdx + 1))) 0 sp))
          | none =>
            setAttr acc (trimS (subS r 0 eqIdx)) (trimS (dropS r (eqIdx + 1)))

/-- The attribute loop with its sufficient fuel. -/
def parseAttrs (r : Str) (acc : AttrMap) : AttrMap := parseAttrsF (r.length + 1) r acc

theorem parseAttrsF_congr : ∀ f1 f2 r acc, r.length < f1 → r.length < f2 →
    parseAttrsF f1 r acc = parseAttrsF f2 r acc := by
  intro f1
  induction f1 with
  | zero => intro f2 r acc h1 h2; omega
  | succ g ih =>
    intro f2 r acc h1 h2
    cases f2 with
    | zero => omega
    | succ h =>
      rw [parseAttrsF, parseAttrsF]
      by_cases hr : r.length = 0
      · simp [hr]
      · simp only [hr, if_false]
        cases hfe : findFrom r [Char.ofNat 61] 0 with
        | none => rfl
        | some eqIdx =>
          dsimp only
          have hlt : eqIdx < r.length :=
            findFrom_lt_length _ _ _ _ (List.cons_ne_nil _ _) hfe
          have hle1 := trimS_length_le (dropS r (eqIdx + 1))
          simp only [dropS, List.length_drop] at hle1
          cases hh : (trimS (dropS r (eqIdx + 1))).head? with
          | some q =>
            dsimp only
            by_cases hq : q = quoteDbl ∨ q = quoteSgl
            · simp only [hq, if_true]
              cases hendq : findFrom (trimS (dropS r (eqIdx + 1))) [q] 1 with
              | some endQ =>
                dsimp only
                apply ih
                · have h3 := trimS_length_le
                    (dropS (trimS (dropS r (eqIdx + 1))) (endQ + 1))
                  simp only [dropS, List.length_drop] at h3 ⊢
                  omega
                · have h3 := trimS_length_le
                    (dropS (trimS (dropS r (eqIdx + 1))) (endQ + 1))
                  simp only [dropS, List.length_drop] at h3 ⊢
                  omega
              | none => rfl
            · simp only [hq, if_false]
              cases hsp : findFrom (trimS (dropS r (eqIdx + 1))) [Char.ofNat 32] 0 with
              | some sp =>
                dsimp only
                apply ih
                · have h3 := trimS_length_le
                    (dropS (trimS (dropS r (eqIdx + 1))) (sp + 1))
                  simp only [dropS, List.length_drop] at h3 ⊢
                  omega
                · have h3 := trimS_length_le
                    (dropS (trimS (dropS r (eqIdx + 1))) (sp + 1))
                  simp only [dropS, List.length_drop] at h3 ⊢
                  omega
              | none => rfl
          | none =>
            dsimp only
            cases hsp : findFrom (trimS (dropS r (eqIdx + 1))) [Char.ofNat 32] 0 with
            | some sp =>
              dsimp only
              apply ih
              · have h3 := trimS_length_le
                  (dropS (trimS (dropS r (eqIdx + 1))) (sp + 1))
                simp only [dropS, List.length_drop] at h3 ⊢
                omega
              · have h3 := trimS_length_le
                  (dropS (trimS (dropS r (eqIdx + 1))) (sp + 1))
                simp only [dropS, List.length_drop] at h3 ⊢
                omega
            | none => rfl

/-- Generic attributed tree node built by the tag tree builder
(interface `XMLNode` of the source). -/
structure XMLNode where
  tag : Str
  attributes : AttrMap
  content : Str
  children : List XMLNode
  originalTagContent : Str

/-- Strip one trailing slash from a tag name (`tagName.replace("/$", "")`). -/
def stripTrailingSlash (s : Str) : Str :=
  if endsWithS [Char.ofNat 47] s then s.take (s.length - 1) else s

/-- Tag name part of a tag's inner text (up to the first space). -/
def tagNameOf (tagContent : Str) : Str :=
  match findFrom tagContent (strOf " ") 0 with
  | none => tagContent
  | some fs => subS tagContent 0 fs

/-- Attribute part of a tag's inner text (after the first space, empty
when there is none). -/
def attrStringOf (tagContent : Str) : Str :=
  match findFrom tagContent (strOf " ") 0 with
  | none => []
  | some fs => tagContent.drop (fs + 1)

/-- Final tag name: the pre-space part of the tag text, with one
trailing slash stripped when the tag is self-closing. -/
def finalTagName (tagContent : Str) : Str :=
  if endsWithS (strOf "/") tagContent then stripTrailingSlash (tagNameOf tagContent)
  else tagNameOf tagContent

/-- The `XMLNode` pushed for a self-closing tag found at
`[tagStart, tagEnd]` in `xml`. -/
def selfClosingNode (xml : Str) (tagStart tagEnd : Nat) : XMLNode :=
  ⟨finalTagName (subS xml (tagStart + 1) tagEnd),
   parseAttrs (trimS (attrStringOf (subS xml (tagStart + 1) tagEnd))) [],
   [], [], subS xml tagStart (tagEnd + 1)⟩

/-- The `XMLNode` pushed for an opening tag; `innerContent` and
`innerChildren` come from the recursive scan of the tag body. -/
def openNodeOf (innerContent : Str) (innerChildren : List XMLNode)
    (xml : Str) (tagStart tagEnd : Nat) : XMLNode :=
  ⟨finalTagName (subS xml (tagStart + 1) tagEnd),
   parseAttrs (trimS (attrStringOf (subS xml (tagStart + 1) tagEnd))) [],
   innerContent, innerChildren, subS xml tagStart (tagEnd + 1)⟩

/-- Recursive scanning loop of `SlideParser.parseElement`.  The source
mutates `parentNode.content`/`parentNode.children` while walking `xml`
from `currentIndex`; here the two mutated fields are threaded and
returned, `ptag` is `parentNode.tag`.  The structural fuel argument is
fully accounted for: `parseLoopF_congr` proves that any fuel of at least
`parseLoopMeasure xml ci` yields the same result, so the zero-fuel arm
is unreachable from `parseLoop`'s entry fuel — the scan always stops on
its own (claim C6). -/
def parseLoopF : Nat → Str → Nat → Str → Str → List XMLNode → Str × List XMLNode
  | 0, _, _, _, content, children => (content, children)
  | fuel + 1, xml, ci, ptag, content, children =>
    match findFrom xml (strOf "<") ci with
    | none => (content ++ xml.drop ci, children)
    | some tagStart =>
      match findFrom xml (strOf ">") tagStart with
      | none => (content ++ subS xml ci tagStart ++ xml.drop tagStart, children)
      | some tagEnd =>
        if startsWithS (strOf "/") (subS xml (tagStart + 1) tagEnd) then
          if toUpperS ((subS xml (tagStart + 1) tagEnd).drop 1) = toUpperS ptag then
            (content ++ subS xml ci tagStart, children)
          else
            parseLoopF fuel xml (tagEnd + 1) ptag (content ++ subS xml ci tagStart) children
        else if startsWithS (strOf "!--") (subS xml (tagStart + 1) tagEnd) then
          match findFrom xml (strOf "-->") tagStart with
          | some ce =>
            parseLoopF fuel xml (ce + 3) ptag (content ++ subS xml ci tagStart) children
          | none =>
            parseLoopF fuel xml xml.length ptag (content ++ subS xml ci tagStart) children
        else if startsWithS (strOf "!") (tagNameOf (subS xml (tagStart + 1) tagEnd)) ||
            startsWithS (strOf "?") (tagNameOf (subS xml (tagStart + 1) tagEnd)) then
          parseLoopF fuel xml (tagEnd + 1) ptag (content ++ subS xml ci tagStart) children
        else if endsWithS (strOf "/") (subS xml (tagStart + 1) tagEnd) then
          parseLoopF fuel xml (tagEnd + 1) ptag (content ++ subS xml ci tagStart)
            (children ++ [selfClosingNode xml tagStart tagEnd])
        else
          match findFrom xml
              (strOf "</" ++ finalTagName (subS xml (tagStart + 1) tagEnd) ++ strOf ">")
              (tagEnd + 1) with
          | some cIdx =>
            match parseLoopF fuel (xml.drop (tagEnd + 1)) 0
                (finalTagName (subS xml (tagStart + 1) tagEnd)) [] [] with
            | (ic, ik) =>
              parseLoopF fuel xml
                (cIdx + (strOf "</" ++ finalTagName (subS xml (tagStart + 1) tagEnd) ++
                  strOf ">").length)
                ptag (content ++ subS xml ci tagStart)
                (children ++ [openNodeOf ic ik xml tagStart tagEnd])
          | none =>
            match parseLoopF fuel (xml.drop (tagEnd + 1)) 0
                (finalTagName (subS xml (tagStart + 1) tagEnd)) [] [] with
            | (ic, ik) =>
              (content ++ subS xml ci tagStart,
               children ++ [openNodeOf ic ik xml tagStart tagEnd])

/-- Upper bound on the number of recursive `parseLoopF` steps from
position `ci` of `xml`: the loop advances at every step, and every
nested call scans a strictly shorter suffix. -/
def parseLoopMeasure (xml : Str) (ci : Nat) : Nat :=
  xml.length * (xml.length + 2) + (xml.length + 1 - ci)

theorem parseLoopMeasure_child_lt (xml : Str) (ci k : Nat) (hk : 1 ≤ k)
    (hl : 0 < xml.length) :
    parseLoopMeasure (xml.drop k) 0 < parseLoopMeasure xml ci := by
  unfold parseLoopMeasure
  have h1 : (xml.drop k).length ≤ xml.length - 1 := by
    simp only [List.length_drop]
    omega
  have h2 : (xml.drop k).length + 1 ≤ xml.length := by omega
  have key : (xml.drop k).length * ((xml.drop k).length + 2) +
      ((xml.drop k).length + 1 - 0) <
      ((xml.drop k).length + 1) * ((xml.drop k).length + 1 + 2) := by
    ring_nf
    omega
  have mono : ((xml.drop k).length + 1) * ((xml.drop k).length + 1 + 2) ≤
      xml.length * (xml.length + 2) :=
    Nat.mul_le_mul h2 (by omega)
  omega

theorem parseLoopF_congr : ∀ f1 f2 xml ci ptag content children,
    parseLoopMeasure xml ci ≤ f1 → parseLoopMeasure xml ci ≤ f2 →
    parseLoopF f1 xml ci ptag content children =
      parseLoopF f2 xml ci ptag content children := by
  intro f1
  induction f1 with
  | zero =>
    intro f2 xml ci ptag content children hm1 hm2
    unfold parseLoopMeasure at hm1
    have hA : xml.length ≤ xml.length * (xml.length + 2) :=
      Nat.le_mul_of_pos_right xml.length (by omega)
    have hl : xml.length = 0 := by omega
    have hci : 1 ≤ ci := by omega
    have hxml : xml = [] := List.eq_nil_of_length_eq_zero hl
    subst hxml
    cases f2 with
    | zero => rfl
    | succ h =>
      have hf : findFrom ([] : Str) (strOf "<") ci = none := by
        unfold findFrom
        rw [if_pos (by simpa using hci)]
      simp only [parseLoopF]
      simp [hf]
  | succ g ih =>
    intro f2 xml ci ptag content children hm1 hm2
    cases f2 with
    | zero =>
      unfold parseLoopMeasure at hm2
      have hA : xml.length ≤ xml.length * (xml.length + 2) :=
        Nat.le_mul_of_pos_right xml.length (by omega)
      have hl : xml.length = 0 := by omega
      have hci : 1 ≤ ci := by omega
      have hxml : xml = [] := List.eq_nil_of_length_eq_zero hl
      subst hxml
      have hf : findFrom ([] : Str) (strOf "<") ci = none := by
        unfold findFrom
        rw [if_pos (by simpa using hci)]
      simp only [parseLoopF]
      simp [hf]
    | succ h =>
      simp only [parseLoopF]
      cases hts : findFrom xml (strOf "<") ci with
      | none => rfl
      | some tagStart =>
        dsimp only
        have b1 := findFrom_start_le _ _ _ _ hts
        have b2 := findFrom_lt_length _ _ _ _ (by decide) hts
        cases hte : findFrom xml (strOf ">") tagStart with
        | none => rfl
        | some tagEnd =>
          dsimp only
          have b3 := findFrom_start_le _ _ _ _ hte
          by_cases hcl : startsWithS (strOf "/") (subS xml (tagStart + 1) tagEnd) = true
          · rw [if_pos hcl, if_pos hcl]
            by_cases hpm : toUpperS ((subS xml (tagStart + 1) tagEnd).drop 1) = toUpperS ptag
            · rw [if_pos hpm, if_pos hpm]
            · rw [if_neg hpm, if_neg hpm]
              apply ih
              · unfold parseLoopMeasure at hm1 ⊢
                omega
              · unfold parseLoopMeasure at hm2 ⊢
                omega
          · rw [if_neg hcl, if_neg hcl]
            by_cases hcm : startsWithS (strOf "!--") (subS xml (tagStart + 1) tagEnd) = true
            · rw [if_pos hcm, if_pos hcm]
              cases hce : findFrom xml (strOf "-->") tagStart with
              | some ce =>
                dsimp only
                have b5 := findFrom_start_le _ _ _ _ hce
                apply ih
                · unfold parseLoopMeasure at hm1 ⊢
                  omega
                · unfold parseLoopMeasure at hm2 ⊢
                  omega
              | none =>
                dsimp only
                apply ih
                · unfold parseLoopMeasure at hm1 ⊢
                  omega
                · unfold parseLoopMeasure at hm2 ⊢
                  omega
            · rw [if_neg hcm, if_neg hcm]
              by_cases hbang : (startsWithS (strOf "!")
                    (tagNameOf (subS xml (tagStart + 1) tagEnd)) ||
                  startsWithS (strOf "?")
                    (tagNameOf (subS xml (tagStart + 1) tagEnd))) = true
              · rw [if_pos hbang, if_pos hbang]
                apply ih
                · unfold parseLoopMeasure at hm1 ⊢
                  omega
                · unfold parseLoopMeasure at hm2 ⊢
                  omega
              · rw [if_neg hbang, if_neg hbang]
                by_cases hsc : endsWithS (strOf "/") (subS xml (tagStart + 1) tagEnd) = true
                · rw [if_pos hsc, if_pos hsc]
                  apply ih
                  · unfold parseLoopMeasure at hm1 ⊢
                    omega
                  · unfold parseLoopMeasure at hm2 ⊢
                    omega
                · rw [if_neg hsc, if_neg hsc]
                  have hchild : parseLoopMeasure (xml.drop (tagEnd + 1)) 0 <
                      parseLoopMeasure xml ci :=
                    parseLoopMeasure_child_lt xml ci (tagEnd + 1) (by omega) (by omega)
                  have hinner : parseLoopF g (xml.drop (tagEnd + 1)) 0
                        (finalTagName (subS xml (tagStart + 1) tagEnd)) [] [] =
                      parseLoopF h (xml.drop (tagEnd + 1)) 0
                        (finalTagName (subS xml (tagStart + 1) tagEnd)) [] [] := by
                    apply ih
                    · omega
                    · omega
                  cases hcf : findFrom xml
                      (strOf "</" ++ finalTagName (subS xml (tagStart + 1) tagEnd) ++
                        strOf ">") (tagEnd + 1) with
                  | some cIdx =>
                    dsimp only
                    have b6 := findFrom_start_le _ _ _ _ hcf
                    rw [hinner]
                    apply ih
                    · unfold parseLoopMeasure at hm1 ⊢
                      omega
                    · unfold parseLoopMeasure at hm2 ⊢
                      omega
                  | none =>
                    dsimp only
                    rw [hinner]

/-- Method `SlideParser.parseElement`'s loop at its natural entry fuel. -/
def parseLoop (xml : Str) (ci : Nat) (ptag content : Str)
    (children : List XMLNode) : Str × List XMLNode :=
  parseLoopF (parseLoopMeasure xml ci) xml ci ptag content children

/-- The tree node holding a whole parsed fragment (`tag: "ROOT"`). -/
def rootNodeInit : XMLNode := ⟨strOf "ROOT", [], [], [], []⟩

/-- Body of `SlideParser.parseElement` applied to a parent node: scan
`xml` and return the parent with its accumulated content and children. -/
def parseElementInto (xml : Str) (parent : XMLNode) : XMLNode :=
  match parseLoop xml 0 parent.tag parent.content parent.children with
  | (c, k) => { parent with content := c, children := k }

/-- Preprocessing of `SlideParser.parseXML`: strip an opening
`<PRESENTATION...>` tag and the first `</PRESENTATION>`, and close a
dangling `<SECTION`. -/
def fixupXml (xmlString : Str) : Str :=
  let processed :=
    match findFrom xmlString (strOf "<PRESENTATION") 0 with
    | none => xmlString
    | some pStart =>
      match findFrom xmlString (strOf ">") pStart with
      | none => xmlString
      | some pEnd => xmlString.take pStart ++ xmlString.drop (pEnd + 1)
  let processed1 := removeFirstS processed (strOf "</PRESENTATION>")
  if containsS processed1 (strOf "<SECTION") &&
      !(endsWithS (strOf "</SECTION>") processed1) then
    processed1 ++ strOf "</SECTION>"
  else processed1

/-- Method `SlideParser.parseXML`: preprocess, then scan the result into
a fresh `ROOT` node. -/
def parseXML (xmlString : Str) : XMLNode :=
  parseElementInto (fixupXml xmlString) rootNodeInit

/-- Data point of a chart element.  The source stores
`parseFloat(text || "0")` for values; the embedding keeps the exact
argument string handed to `parseFloat` (floating-point conversion is
injective on the stored text and no claim inspects the numeric value). -/
inductive ChartPoint where
  | lv (label : Str) (value : Str)
  | xy (x : Str) (y : Str)
deriving DecidableEq

/-- Slide element model (the tagged objects built by `SlideParser`):
text runs, generic typed elements with children, `LI`-derived paragraphs
(`indent: 1, listStyleType: "disc"`), images, icon placeholders, charts. -/
inductive SElem where
  | run (text : Str) (bold : Bool) (italic : Bool) (underline : Bool)
  | el (ty : Str) (children : List SElem)
  | li (children : List SElem)
  | img (url : Str) (query : Str) (children : List SElem)
  | icon (query : Str) (children : List SElem)
  | chart (ty : Str) (data : List ChartPoint) (children : List SElem)

/-- The default empty text run `{ text: "" }`. -/
def emptyRun : SElem := SElem.run [] false false false

mutual

/-- Method `SlideParser.getTextContent`: trimmed (or raw) own content
followed by the raw text of all descendants. -/
def getTextContent : XMLNode → Bool → Str
  | ⟨_, _, content, children, _⟩, tr =>
    (if tr then trimS content else content) ++ getTextContentList children

/-- Child traversal of `getTextContent`. -/
def getTextContentList : List XMLNode → Str
  | [] => []
  | c :: rest => getTextContent c false ++ getTextContentList rest

end

/-- Method `SlideParser.createImage`: requires a `query` attribute of
trimmed length at least 3, takes `url` from `url` or `src`. -/
def createImage (n : XMLNode) : Option SElem :=
  let query := getAttrD n.attributes (strOf "query")
  let u1 := getAttrD n.attributes (strOf "url")
  let url := if u1 ≠ [] then u1 else getAttrD n.attributes (strOf "src")
  if query = [] ∨ (trimS query).length < 3 then none
  else some (SElem.img url query [emptyRun])

/-- Tail of `SlideParser.getTextDescendants`: own content as a run
before the converted children, defaulting to one empty run. -/
def gtdWrap (content : Str) (rest : List SElem) : List SElem :=
  let base := if content ≠ [] then [SElem.run content false false false] else []
  if (base ++ rest).length > 0 then base ++ rest else [emptyRun]

/-- Tail of `SlideParser.processNodes`: default to one empty run when no
child converts. -/
def pnWrap (r : List SElem) : List SElem :=
  if r.length > 0 then r else [emptyRun]

mutual

/-- Method `SlideParser.processNode`: convert one nested tree node to a
slide element (headings, paragraphs, images, `LI` items, a generic
paragraph wrapper for unknown tags with children, `null` otherwise).
The one-line bodies of `createHeading`, `createParagraph`,
`getTextDescendants` and `processNodes` are inlined (via
`gtdWrap`/`pnWrap`) so that the recursion is structural; the
stand-alone definitions below restate them verbatim. -/
def processNode : XMLNode → Option SElem
  | ⟨tagRaw, attrs, content, children, orig⟩ =>
    if toUpperS tagRaw = strOf "H1" then
      some (SElem.el (strOf "h1") (gtdWrap content (gtdChildren children)))
    else if toUpperS tagRaw = strOf "H2" then
      some (SElem.el (strOf "h2") (gtdWrap content (gtdChildren children)))
    else if toUpperS tagRaw = strOf "H3" then
      some (SElem.el (strOf "h3") (gtdWrap content (gtdChildren children)))
    else if toUpperS tagRaw = strOf "H4" then
      some (SElem.el (strOf "h4") (gtdWrap content (gtdChildren children)))
    else if toUpperS tagRaw = strOf "H5" then
      some (SElem.el (strOf "h5") (gtdWrap content (gtdChildren children)))
    else if toUpperS tagRaw = strOf "H6" then
      some (SElem.el (strOf "h6") (gtdWrap content (gtdChildren children)))
    else if toUpperS tagRaw = strOf "P" then
      some (SElem.el (strOf "p") (gtdWrap content (gtdChildren children)))
    else if toUpperS tagRaw = strOf "IMG" then
      createImage ⟨tagRaw, attrs, content, children, orig⟩
    else if toUpperS tagRaw = strOf "LI" then
      some (SElem.li (gtdWrap content (gtdChildren children)))
    else if children.length > 0 then
      some (SElem.el (strOf "p") (pnWrap (processNodesGo children)))
    else none

/-- Child traversal of `SlideParser.getTextDescendants`: inline emphasis
(`B`/`STRONG`, `I`/`EM`, `U`) flattened into run attributes, anything
else through `processNode`. -/
def gtdChildren : List XMLNode → List SElem
  | [] => []
  | c :: rest =>
    (if toUpperS c.tag = strOf "B" ∨ toUpperS c.tag = strOf "STRONG" then
      [SElem.run (getTextContent c true) true false false]
    else if toUpperS c.tag = strOf "I" ∨ toUpperS c.tag = strOf "EM" then
      [SElem.run (getTextContent c true) false true false]
    else if toUpperS c.tag = strOf "U" then
      [SElem.run (getTextContent c true) false false true]
    else
      match processNode c with
      | some e => [e]
      | none => []) ++ gtdChildren rest

/-- Element-wise traversal of `SlideParser.processNodes`. -/
def processNodesGo : List XMLNode → List SElem
  | [] => []
  | c :: rest =>
    match processNode c with
    | some e => e :: processNodesGo rest
    | none => processNodesGo rest

end

/-- Method `SlideParser.getTextDescendants`. -/
def getTextDescendants (n : XMLNode) : List SElem :=
  gtdWrap n.content (gtdChildren n.children)

/-- Method `SlideParser.processNodes`. -/
def processNodes (l : List XMLNode) : List SElem :=
  pnWrap (processNodesGo l)

/-- Method `SlideParser.createHeading`. -/
def createHeading (level : Str) (n : XMLNode) : SElem :=
  SElem.el level (getTextDescendants n)

/-- Method `SlideParser.createParagraph`. -/
def createParagraph (n : XMLNode) : SElem :=
  SElem.el (strOf "p") (getTextDescendants n)

/-- One group item: wrap the converted children of a `DIV` wrapper child. -/
def groupItemsOf (itemTy : Str) (n : XMLNode) : List SElem :=
  n.children.filterMap (fun c =>
    if toUpperS c.tag = strOf "DIV" then
      some (SElem.el itemTy (processNodes c.children))
    else none)

/-- Method `SlideParser.createBulletGroup`. -/
def createBulletGroup (n : XMLNode) : SElem :=
  SElem.el (strOf "bullets") (groupItemsOf (strOf "bullet") n)

/-- Method `SlideParser.createTimeline`. -/
def createTimeline (n : XMLNode) : SElem :=
  SElem.el (strOf "timeline") (groupItemsOf (strOf "timeline-item") n)

/-- Method `SlideParser.createArrowList`. -/
def createArrowList (n : XMLNode) : SElem :=
  SElem.el (strOf "arrows") (groupItemsOf (strOf "arrow-item") n)

/-- Method `SlideParser.createPyramid`. -/
def createPyramid (n : XMLNode) : SElem :=
  SElem.el (strOf "pyramid") (groupItemsOf (strOf "pyramid-item") n)

/-- Method `SlideParser.createCycle`. -/
def createCycle (n : XMLNode) : SElem :=
  SElem.el (strOf "cycle") (groupItemsOf (strOf "cycle-item") n)

/-- Method `SlideParser.createStaircase`. -/
def createStaircase (n : XMLNode) : SElem :=
  SElem.el (strOf "staircase") (groupItemsOf (strOf "stair-item") n)

/-- Method `SlideParser.createBoxes`. -/
def createBoxes (n : XMLNode) : SElem :=
  SElem.el (strOf "boxes") (groupItemsOf (strOf "box-item") n)

/-- Method `SlideParser.createCompare`. -/
def createCompare (n : XMLNode) : SElem :=
  SElem.el (strOf "compare") (groupItemsOf (strOf "compare-side") n)

/-- Method `SlideParser.createBeforeAfter`. -/
def createBeforeAfter (n : XMLNode) : SElem :=
  SElem.el (strOf "before-after") (groupItemsOf (strOf "before-after-side") n)

/-- Method `SlideParser.createProsCons`: children tagged `PROS` and
`CONS` become `pros-item`/`cons-item` wrappers, in markup order. -/
def createProsCons (n : XMLNode) : SElem :=
  SElem.el (strOf "pros-cons") (n.children.filterMap (fun c =>
    if toUpperS c.tag = strOf "PROS" then
      some (SElem.el (strOf "pros-item") (processNodes c.children))
    else if toUpperS c.tag = strOf "CONS" then
      some (SElem.el (strOf "cons-item") (processNodes c.children))
    else none))

/-- Icon-list item of `SlideParser.createIconList`: an `ICON` child sets
the pending query (the last one wins, empty resets), other children are
converted; a non-empty query prepends an icon placeholder element. -/
def iconItemOf (c : XMLNode) : SElem :=
  let folded := c.children.foldl (fun (acc : List SElem × Str) ic =>
    if toUpperS ic.tag = strOf "ICON" then
      (acc.1, getAttrD ic.attributes (strOf "query"))
    else
      match processNode ic with
      | some e => (acc.1 ++ [e], acc.2)
      | none => acc) ([], [])
  let children :=
    if folded.2 ≠ [] then SElem.icon folded.2 [emptyRun] :: folded.1 else folded.1
  SElem.el (strOf "icon-item") children

/-- Method `SlideParser.createIconList`. -/
def createIconList (n : XMLNode) : SElem :=
  SElem.el (strOf "icons") (n.children.filterMap (fun c =>
    if toUpperS c.tag = strOf "DIV" then some (iconItemOf c) else none))

/-- Row conversion of `SlideParser.createTable`: keep `TD`/`TH` cells,
drop rows with no cells. -/
def tableRowOf (row : XMLNode) : List SElem :=
  let cells := row.children.filterMap (fun cell =>
    if toUpperS cell.tag = strOf "TD" then
      some (SElem.el (strOf "td") (processNodes cell.children))
    else if toUpperS cell.tag = strOf "TH" then
      some (SElem.el (strOf "th") (processNodes cell.children))
    else none)
  if cells.length > 0 then [SElem.el (strOf "tr") cells] else []

/-- Method `SlideParser.createTable`: `TR`/`ROW` children (and `TR` rows
inside `THEAD`/`TBODY`) become table rows. -/
def createTable (n : XMLNode) : SElem :=
  SElem.el (strOf "table") (n.children.flatMap (fun c =>
    if toUpperS c.tag = strOf "TR" ∨ toUpperS c.tag = strOf "ROW" then
      tableRowOf c
    else if toUpperS c.tag = strOf "THEAD" ∨ toUpperS c.tag = strOf "TBODY" then
      c.children.flatMap (fun r =>
        if toUpperS r.tag = strOf "TR" then tableRowOf r else [])
    else []))

/-- JS `s.toLowerCase()` on ASCII attribute values. -/
def toLowerS (s : Str) : Str := s.map Char.toLower

/-- Chart element type names (`typeMap[chartType] || "bar-chart"`). -/
def chartTypeName (ct : Str) : Str :=
  if ct = strOf "pie" then strOf "pie-chart"
  else if ct = strOf "bar" then strOf "bar-chart"
  else if ct = strOf "area" then strOf "area-chart"
  else if ct = strOf "radar" then strOf "radar-chart"
  else if ct = strOf "scatter" then strOf "scatter-chart"
  else if ct = strOf "line" then strOf "line-chart"
  else strOf "bar-chart"

/-- Content of a named child of a `DATA` node, trimmed, with the given
default when the child is missing or its trimmed content is empty
(`node?.content?.trim() || dflt`). -/
def dataFieldOf (d : XMLNode) (name : Str) (dflt : Str) : Str :=
  match d.children.find? (fun c => toUpperS c.tag == name) with
  | some cn => if trimS cn.content ≠ [] then trimS cn.content else dflt
  | none => dflt

/-- Method `SlideParser.createChart`: `charttype` attribute (default
`bar`), one data point per `DATA` child — `{x, y}` pairs for scatter,
`{label, value}` otherwise. -/
def createChart (n : XMLNode) : SElem :=
  let ct0 := getAttrD n.attributes (strOf "charttype")
  let chartType := toLowerS (if ct0 ≠ [] then ct0 else strOf "bar")
  let dataNodes := n.children.filter (fun c => toUpperS c.tag == strOf "DATA")
  let data :=
    if dataNodes.length > 0 then
      if chartType = strOf "scatter" then
        dataNodes.map (fun d =>
          ChartPoint.xy (dataFieldOf d (strOf "X") (strOf "0"))
            (dataFieldOf d (strOf "Y") (strOf "0")))
      else
        dataNodes.map (fun d =>
          ChartPoint.lv (dataFieldOf d (strOf "LABEL") [])
            (dataFieldOf d (strOf "VALUE") (strOf "0")))
    else []
  SElem.chart (chartTypeName chartType) data [emptyRun]

/-- Method `SlideParser.processTopLevelNode`: dispatch a direct section
child on its upper-cased tag name; unknown tags yield `none`. -/
def processTopLevelNode (n : XMLNode) : Option SElem :=
  let tag := toUpperS n.tag
  if tag = strOf "H1" then some (createHeading (strOf "h1") n)
  else if tag = strOf "H2" then some (createHeading (strOf "h2") n)
  else if tag = strOf "H3" then some (createHeading (strOf "h3") n)
  else if tag = strOf "H4" then some (createHeading (strOf "h4") n)
  else if tag = strOf "H5" then some (createHeading (strOf "h5") n)
  else if tag = strOf "H6" then some (createHeading (strOf "h6") n)
  else if tag = strOf "P" then some (createParagraph n)
  else if tag = strOf "IMG" then createImage n
  else if tag = strOf "BULLETS" then some (createBulletGroup n)
  else if tag = strOf "ICONS" then some (createIconList n)
  else if tag = strOf "TIMELINE" then some (createTimeline n)
  else if tag = strOf "ARROWS" then some (createArrowList n)
  else if tag = strOf "PYRAMID" then some (createPyramid n)
  else if tag = strOf "CYCLE" then some (createCycle n)
  else if tag = strOf "STAIRCASE" then some (createStaircase n)
  else if tag = strOf "BOXES" then some (createBoxes n)
  else if tag = strOf "COMPARE" then some (createCompare n)
  else if tag = strOf "BEFORE-AFTER" ∨ tag = strOf "BEFOREAFTER" then
    some (createBeforeAfter n)
  else if tag = strOf "PROS-CONS" ∨ tag = strOf "PROSCONS" then
    some (createProsCons n)
  else if tag = strOf "TABLE" then some (createTable n)
  else if tag = strOf "CHART" then some (createChart n)
  else none

/-- Lexicographic (UTF-16 code unit) order used by JS `Array.sort()` on
attribute keys. -/
def lexLe (a b : Str) : Bool :=
  match a, b with
  | [], _ => true
  | _ :: _, [] => false
  | x :: xs, y :: ys => if x = y then lexLe xs ys else decide (x < y)

/-- Insertion into a lexicographically sorted key list. -/
def insertSorted (x : Str) (l : List Str) : List Str :=
  match l with
  | [] => [x]
  | y :: rest => if lexLe x y then x :: y :: rest else y :: insertSorted x rest

/-- JS `Object.keys(attributes).sort()`. -/
def sortKeys (l : List Str) : List Str := l.foldr insertSorted []

/-- Identity key produced by `SlideParser.generateSectionIdentifier`.
A deterministic fingerprint string, or a fresh random name
(`section-<generateId(8)>`, embedded as a counter value; the random
alphanumeric suffix can never collide with a fingerprint string, which
always starts with `heading-` or contains `=` or `|`). -/
inductive SectionKey where
  | fp (s : Str)
  | fresh (n : Nat)
deriving DecidableEq

/-- Deterministic part of `SlideParser.generateSectionIdentifier`:
`heading-<H1 text>` when a non-empty-trimmed `H1` child exists, else
sorted `k=v` attribute pairs plus the upper-cased tag names of the first
three children; `none` when that fingerprint has length below 5 (the
source then falls back to a fresh random identifier). -/
def sectionFingerprint (n : XMLNode) : Option Str :=
  let hContent :=
    match n.children.find? (fun c => toUpperS c.tag == strOf "H1") with
    | some h1n => trimS (getTextContent h1n true)
    | none => []
  if hContent.length > 0 then some (strOf "heading-" ++ hContent)
  else
    let keys := sortKeys (n.attributes.map Prod.fst)
    let attrPart :=
      if keys.length > 0 then
        List.intercalate (strOf ";")
          (keys.map (fun k => k ++ [Char.ofNat 61] ++ getAttrD n.attributes k))
      else []
    let childTags := (n.children.take 3).map (fun c => toUpperS c.tag)
    let fpr := attrPart ++
      (if childTags.length > 0 then
        [Char.ofNat 124] ++ List.intercalate [Char.ofNat 45] childTags
      else [])
    if fpr.length < 5 then none else some fpr

/-- Root image data of a slide (`{ query, url?, layoutType? }`). -/
structure RootImg where
  query : Str
  url : Option Str
  layoutType : Option Str
deriving DecidableEq

/-- Slide produced by the parser.  Ids are the fresh-counter values
standing for `generateId()` outputs. -/
structure Slide where
  id : Nat
  content : List SElem
  rootImage : Option RootImg
  layoutType : Option Str
  alignment : Str

/-- Mutable state of a `SlideParser` instance.  `nextId` is the
fresh-name counter embedding `generateId`'s randomness. -/
structure ParserState where
  buffer : Str
  completedSections : List Str
  parsedSlides : List Slide
  lastInputLength : Nat
  sectionIdMap : List (SectionKey × Nat)
  latestContent : Str
  nextId : Nat

/-- A freshly constructed `SlideParser`. -/
def initialState : ParserState :=
  ⟨[], [], [], 0, [], [], 0⟩

/-- First-match lookup in the section-identifier map (`Map.get`; the
source only ever inserts absent keys, so first-match agrees with JS
`Map` semantics). -/
def mapGet (m : List (SectionKey × Nat)) (k : SectionKey) : Option Nat :=
  match m with
  | [] => none
  | (k1, v) :: rest => if k1 = k then some v else mapGet rest k

/-- Valid `layout` attribute values. -/
def validLayout (v : Str) : Bool :=
  v = strOf "left" ∨ v = strOf "right" ∨ v = strOf "vertical" ∨ v = strOf "background"

/-- The section's validated `layout` attribute (`layoutType` in the
source): the attribute value when present and valid, `undefined`
otherwise. -/
def sectionLayoutOf (n : XMLNode) : Option Str :=
  match getAttr n.attributes (strOf "layout") with
  | some v => if validLayout v then some v else none
  | none => none

/-- The `SECTION` child of the parsed section string
(`rootNode.children.find(...)` in `convertSectionToSlide`). -/
def sectionNodeOf (sectionString : Str) : Option XMLNode :=
  (parseXML sectionString).children.find? (fun c => toUpperS c.tag == strOf "SECTION")

/-- One step of the direct-children loop of
`SlideParser.convertSectionToSlide`: an `IMG` child with a non-empty
`query` becomes the root image when none is set yet (and never
contributes content), a `DIV` child is unwrapped, anything else goes
through `processTopLevelNode`. -/
def convertChildStep (layoutType : Option Str)
    (acc : List SElem × Option RootImg) (child : XMLNode) :
    List SElem × Option RootImg :=
  if toUpperS child.tag = strOf "IMG" then
    let query := getAttrD child.attributes (strOf "query")
    let u1 := getAttrD child.attributes (strOf "url")
    let url := if u1 ≠ [] then u1 else getAttrD child.attributes (strOf "src")
    if query ≠ [] ∧ acc.2 = none then
      (acc.1, some ⟨query, if url ≠ [] then some url else none, layoutType⟩)
    else acc
  else if toUpperS child.tag = strOf "DIV" then
    (acc.1 ++ child.children.filterMap processTopLevelNode, acc.2)
  else
    match processTopLevelNode child with
    | some e => (acc.1 ++ [e], acc.2)
    | none => acc

/-- Method `SlideParser.convertSectionToSlide`: parse the section string,
assign (or reuse) the slide id via the fingerprint map, convert direct
children — the first `IMG` child with a non-empty `query` becomes
`rootImage`, every `IMG` child is excluded from the content list, `DIV`
children are unwrapped, the rest go through `processTopLevelNode`. -/
def convertSectionToSlide (st : ParserState) (sectionString : Str) :
    Slide × ParserState :=
  match sectionNodeOf sectionString with
  | none =>
    ({ id := st.nextId, content := [], rootImage := none, layoutType := none,
       alignment := strOf "center" },
     { st with nextId := st.nextId + 1 })
  | some sectionNode =>
    match
      match sectionFingerprint sectionNode with
      | some f => (SectionKey.fp f, st)
      | none => (SectionKey.fresh st.nextId, { st with nextId := st.nextId + 1 })
    with
    | (key, st1) =>
      match
        match mapGet st1.sectionIdMap key with
        | some i => (i, st1)
        | none =>
          (st1.nextId,
           { st1 with nextId := st1.nextId + 1,
                      sectionIdMap := st1.sectionIdMap ++ [(key, st1.nextId)] })
      with
      | (slideId, st2) =>
        match sectionLayoutOf sectionNode with
        | layoutType =>
          match sectionNode.children.foldl (convertChildStep layoutType) ([], none)
          with
          | (els, rootImg) =>
            ({ id := slideId, content := els, rootImage := rootImg,
               layoutType := layoutType, alignment := strOf "center" }, st2)

/-- Recognized content markers of the provisional-completion check in
`SlideParser.extractCompleteSections`. -/
def hasContentTag (s : Str) : Bool :=
  containsS s (strOf "<H1>") || containsS s (strOf "<H2>") ||
  containsS s (strOf "<P>") || containsS s (strOf "<IMG")

/-- Section scanning loop of `SlideParser.extractCompleteSections`.
Each extracted section carries a flag: `true` when it was provisionally
completed (closing tag synthesized because the next section started),
`false` when its own explicit `</SECTION>` was found.  The scan advances
by at least one position per round, so a fuel of `length + 1` is always
sufficient (`extractLoopF_congr`). -/
def extractLoopF : Nat → Str → Nat → Nat → List (Bool × Str) → List (Bool × Str) × Nat
  | 0, _, _, extractedEnd, acc => (acc, extractedEnd)
  | fuel + 1, buffer, startIdx, extractedEnd, acc =>
    match findFrom buffer (strOf "<SECTION") startIdx with
    | none => (acc, extractedEnd)
    | some sectionStart =>
      match findFrom buffer (strOf "</SECTION>") sectionStart,
            findFrom buffer (strOf "<SECTION") (sectionStart + 1) with
      | some se, none =>
        extractLoopF fuel buffer (se + 10) (se + 10)
          (acc ++ [(false, subS buffer sectionStart (se + 10))])
      | some se, some nx =>
        if se < nx then
          extractLoopF fuel buffer (se + 10) (se + 10)
            (acc ++ [(false, subS buffer sectionStart (se + 10))])
        else
          extractLoopF fuel buffer nx nx
            (if hasContentTag (subS buffer sectionStart nx) then
              acc ++ [(true, subS buffer sectionStart nx ++ strOf "</SECTION>")]
            else acc)
      | none, some nx =>
        extractLoopF fuel buffer nx nx
          (if hasContentTag (subS buffer sectionStart nx) then
            acc ++ [(true, subS buffer sectionStart nx ++ strOf "</SECTION>")]
          else acc)
      | none, none => (acc, extractedEnd)

theorem extractLoopF_congr : ∀ f1 f2 buffer startIdx extractedEnd acc,
    buffer.length + 1 - startIdx ≤ f1 → buffer.length + 1 - startIdx ≤ f2 →
    extractLoopF f1 buffer startIdx extractedEnd acc =
      extractLoopF f2 buffer startIdx extractedEnd acc := by
  intro f1
  induction f1 with
  | zero =>
    intro f2 buffer startIdx extractedEnd acc hm1 hm2
    have hf : findFrom buffer (strOf "<SECTION") startIdx = none := by
      unfold findFrom
      rw [if_pos (by omega)]
    cases f2 with
    | zero => rfl
    | succ h =>
      simp only [extractLoopF]
      simp [hf]
  | succ g ih =>
    intro f2 buffer startIdx extractedEnd acc hm1 hm2
    cases f2 with
    | zero =>
      have hf : findFrom buffer (strOf "<SECTION") startIdx = none := by
        unfold findFrom
        rw [if_pos (by omega)]
      simp only [extractLoopF]
      simp [hf]
    | succ h =>
      simp only [extractLoopF]
      cases hs : findFrom buffer (strOf "<SECTION") startIdx with
      | none => rfl
      | some sectionStart =>
        dsimp only
        have b1 := findFrom_start_le _ _ _ _ hs
        have b2 := findFrom_lt_length _ _ _ _ (by decide) hs
        cases hse : findFrom buffer (strOf "</SECTION>") sectionStart with
        | some se =>
          have b3 := findFrom_start_le _ _ _ _ hse
          cases hnx : findFrom buffer (strOf "<SECTION") (sectionStart + 1) with
          | none =>
            dsimp only
            apply ih <;> omega
          | some nx =>
            dsimp only
            have b4 := findFrom_start_le _ _ _ _ hnx
            by_cases hlt : se < nx
            · rw [if_pos hlt, if_pos hlt]
              apply ih <;> omega
            · rw [if_neg hlt, if_neg hlt]
              apply ih <;> omega
        | none =>
          cases hnx : findFrom buffer (strOf "<SECTION") (sectionStart + 1) with
          | none => rfl
          | some nx =>
            dsimp only
            have b4 := findFrom_start_le _ _ _ _ hnx
            apply ih <;> omega

/-- Method `SlideParser.extractCompleteSections` on a buffer value:
skip a leading `<PRESENTATION...>` tag (when within the first 10
characters) and a comment right after it, scan out complete and
provisionally complete sections, and drop the consumed prefix. -/
def extractSectionsFn (buffer : Str) : List (Bool × Str) × Str :=
  let startIdx :=
    match findFrom buffer (strOf "<PRESENTATION") 0 with
    | some p =>
      if p < 10 then
        match findFrom buffer (strOf ">") p with
        | some te =>
          match findFrom buffer (strOf "<!--") (te + 1) with
          | some cs =>
            if cs < (te + 1) + 20 then
              match findFrom buffer (strOf "-->") cs with
              | some cE => cE + 3
              | none => te + 1
            else te + 1
          | none => te + 1
        | none => 0
      else 0
    | none => 0
  match extractLoopF (buffer.length + 1) buffer startIdx 0 [] with
  | (secs, consumed) =>
    (secs, if consumed > 0 then buffer.drop consumed else buffer)

/-- State update of `SlideParser.extractCompleteSections`: append the
extracted section strings and keep the remaining buffer. -/
def extractStep (st : ParserState) : ParserState :=
  match extractSectionsFn st.buffer with
  | (secs, newBuf) =>
    { st with completedSections := st.completedSections ++ secs.map Prod.snd,
              buffer := newBuf }

/-- Sequential conversion of pending section strings
(`completedSections.map(this.convertSectionToSlide)`). -/
def convertAll (st : ParserState) (sections : List Str) :
    List Slide × ParserState :=
  match sections with
  | [] => ([], st)
  | s :: rest =>
    match convertSectionToSlide st s with
    | (sl, st1) =>
      match convertAll st1 rest with
      | (sls, st2) => (sl :: sls, st2)

/-- Method `SlideParser.processSections`: convert all pending sections,
append the new slides to the running deck, clear the pending list. -/
def processSections (st : ParserState) : List Slide × ParserState :=
  if st.completedSections.length = 0 then ([], st)
  else
    match convertAll st st.completedSections with
    | (newSlides, st1) =>
      (newSlides, { st1 with parsedSlides := st1.parsedSlides ++ newSlides,
                             completedSections := [] })

/-- Condition `isFullContent && this.lastInputLength > 0` of
`SlideParser.parseChunk`: the chunk is at least as long as the previous
input and agrees with the buffer on the first `lastInputLength`
characters. -/
def reconcileCond (st : ParserState) (chunk : Str) : Bool :=
  decide (st.lastInputLength ≤ chunk.length) &&
  decide (subS chunk 0 st.lastInputLength = subS st.buffer 0 st.lastInputLength) &&
  decide (0 < st.lastInputLength)

/-- Method `SlideParser.parseChunk`. -/
def parseChunk (st : ParserState) (chunk : Str) : List Slide × ParserState :=
  let st0 := { st with latestContent := chunk }
  let newBuffer :=
    if reconcileCond st0 chunk then st0.buffer ++ chunk.drop st0.lastInputLength
    else chunk
  let st1 := { st0 with buffer := newBuffer, lastInputLength := chunk.length }
  processSections (extractStep st1)

/-- Method `SlideParser.finalize`: re-run extraction, force-close one
trailing open section (after skipping a `<PRESENTATION...>` head), and
convert what is pending.  The source wraps this in a `try`/`catch`
returning `[]`; the embedding is total, so the catch arm is dead. -/
def finalizeP (st : ParserState) : List Slide × ParserState :=
  match extractStep st with
  | ⟨buf, cs, ps, lil, idMap, lc, nid⟩ =>
    match
      match trimS buf with
      | rem =>
        if startsWithS (strOf "<PRESENTATION") rem then
          match findFrom rem (strOf ">") 0 with
          | some te => trimS (rem.drop (te + 1))
          | none => rem
        else rem
    with
    | rem1 =>
      match
        processSections
          (if startsWithS (strOf "<SECTION") rem1 then
            ⟨buf, cs ++ [rem1 ++ strOf "</SECTION>"], ps, lil, idMap, lc, nid⟩
          else ⟨buf, cs, ps, lil, idMap, lc, nid⟩)
      with
      | (slides, st3) => (slides, { st3 with latestContent := [] })

theorem mapGet_append_some (m l : List (SectionKey × Nat)) (k : SectionKey)
    (i : Nat) (h : mapGet m k = some i) : mapGet (m ++ l) k = some i := by
  induction m with
  | nil => simp [mapGet] at h
  | cons p rest ih =>
    obtain ⟨k1, v⟩ := p
    rw [List.cons_append]
    unfold mapGet at h ⊢
    by_cases hk : k1 = k
    · simpa [hk] using h
    · simp only [hk, if_false] at h ⊢
      exact ih h

theorem mapGet_append_new (m : List (SectionKey × Nat)) (k : SectionKey)
    (v : Nat) (h : mapGet m k = none) : mapGet (m ++ [(k, v)]) k = some v := by
  induction m with
  | nil => simp [mapGet]
  | cons p rest ih =>
    obtain ⟨k1, v1⟩ := p
    rw [List.cons_append]
    unfold mapGet at h ⊢
    by_cases hk : k1 = k
    · simp [hk] at h
    · simp only [hk, if_false] at h ⊢
      exact ih h

theorem convert_state_shape (st : ParserState) (s : Str) :
    ∃ mnew nid,
      (convertSectionToSlide st s).2 =
        ⟨st.buffer, st.completedSections, st.parsedSlides, st.lastInputLength,
         st.sectionIdMap ++ mnew, st.latestContent, nid⟩ := by
  obtain ⟨b, cs, ps, lil, m, lc, nid0⟩ := st
  unfold convertSectionToSlide
  cases hn : sectionNodeOf s with
  | none => exact ⟨[], nid0 + 1, by simp⟩
  | some n =>
    dsimp only
    cases hf : sectionFingerprint n with
    | some f =>
      dsimp only
      cases hm : mapGet m (SectionKey.fp f) with
      | some i => exact ⟨[], nid0, by simp [hm]⟩
      | none => exact ⟨[(SectionKey.fp f, nid0)], nid0 + 1, by simp [hm]⟩
    | none =>
      dsimp only
      cases hm : mapGet m (SectionKey.fresh nid0) with
      | some i => exact ⟨[], nid0 + 1, by simp [hm]⟩
      | none => exact ⟨[(SectionKey.fresh nid0, nid0 + 1)], nid0 + 2, by simp [hm]⟩

theorem convert_mapGet_mono (st : ParserState) (s : Str) (k : SectionKey)
    (i : Nat) (h : mapGet st.sectionIdMap k = some i) :
    mapGet (convertSectionToSlide st s).2.sectionIdMap k = some i := by
  obtain ⟨mnew, nid, hshape⟩ := convert_state_shape st s
  rw [hshape]
  exact mapGet_append_some _ _ _ _ h

theorem convertAll_mapGet_mono (st : ParserState) (L : List Str) (k : SectionKey)
    (i : Nat) (h : mapGet st.sectionIdMap k = some i) :
    mapGet (convertAll st L).2.sectionIdMap k = some i := by
  induction L generalizing st with
  | nil => exact h
  | cons s rest ih =>
    unfold convertAll
    exact ih _ (convert_mapGet_mono st s k i h)

theorem convert_sets_fp (st : ParserState) (s : Str) (n : XMLNode) (f : Str)
    (hn : sectionNodeOf s = some n) (hf : sectionFingerprint n = some f) :
    mapGet (convertSectionToSlide st s).2.sectionIdMap (SectionKey.fp f)
      = some (convertSectionToSlide st s).1.id := by
  unfold convertSectionToSlide
  rw [hn]
  dsimp only
  rw [hf]
  dsimp only
  cases hm : mapGet st.sectionIdMap (SectionKey.fp f) with
  | some i => simpa using hm
  | none => simpa using mapGet_append_new _ _ _ hm

theorem convert_uses_fp (st : ParserState) (s : Str) (n : XMLNode) (f : Str)
    (i : Nat) (hn : sectionNodeOf s = some n) (hf : sectionFingerprint n = some f)
    (hm : mapGet st.sectionIdMap (SectionKey.fp f) = some i) :
    (convertSectionToSlide st s).1.id = i := by
  unfold convertSectionToSlide
  rw [hn]
  dsimp only
  rw [hf]
  dsimp only
  rw [hm]

theorem containsS_append_right (s x pat : Str) (h : containsS s pat = true) :
    containsS (s ++ x) pat = true := by
  unfold containsS at *
  cases hf : findFrom s pat 0 with
  | none => rw [hf] at h; simp at h
  | some p =>
    have hb := findFrom_start_le s pat 0 p hf
    have hpre := findFrom_isPre s pat 0 p hf
    have hdrop : (s ++ x).drop p = s.drop p ++ x := List.drop_append_of_le_length hb.2
    have hpre2 : pat.isPrefixOf ((s ++ x).drop p) = true := by
      rw [hdrop, List.isPrefixOf_iff_prefix] at *
      exact hpre.trans (List.prefix_append _ _)
    exact findFrom_complete (s ++ x) pat p (by simp; omega) hpre2 0 (Nat.zero_le _)

theorem hasContentTag_append (s x : Str) (h : hasContentTag s = true) :
    hasContentTag (s ++ x) = true := by
  unfold hasContentTag at *
  simp only [Bool.or_eq_true] at h ⊢
  rcases h with ((h | h) | h) | h
  · exact Or.inl (Or.inl (Or.inl (containsS_append_right _ _ _ h)))
  · exact Or.inl (Or.inl (Or.inr (containsS_append_right _ _ _ h)))
  · exact Or.inl (Or.inr (containsS_append_right _ _ _ h))
  · exact Or.inr (containsS_append_right _ _ _ h)

/-- A flagged extraction result respects the minimum-content gate: every
provisionally completed section contains a recognized content marker. -/
def gatedOk (l : List (Bool × Str)) : Bool :=
  l.all (fun p => !p.1 || hasContentTag p.2)

theorem extractLoopF_gated : ∀ fuel buffer startIdx extractedEnd acc,
    gatedOk acc = true →
    gatedOk (extractLoopF fuel buffer startIdx extractedEnd acc).1 = true := by
  intro fuel
  induction fuel with
  | zero => intro buffer startIdx extractedEnd acc hg; exact hg
  | succ n ih =>
    intro buffer startIdx extractedEnd acc hg
    simp only [extractLoopF]
    cases hs : findFrom buffer (strOf "<SECTION") startIdx with
    | none => exact hg
    | some sectionStart =>
      dsimp only
      cases hse : findFrom buffer (strOf "</SECTION>") sectionStart with
      | some se =>
        cases hnx : findFrom buffer (strOf "<SECTION") (sectionStart + 1) with
        | none =>
          dsimp only
          apply ih
          unfold gatedOk at hg ⊢
          simp [hg]
        | some nx =>
          dsimp only
          by_cases hlt : se < nx
          · rw [if_pos hlt]
            apply ih
            unfold gatedOk at hg ⊢
            simp [hg]
          · rw [if_neg hlt]
            apply ih
            by_cases hc : hasContentTag (subS buffer sectionStart nx) = true
            · rw [if_pos hc]
              unfold gatedOk at hg ⊢
              simp [hg]
              exact hasContentTag_append _ _ hc
            · rw [if_neg hc]
              exact hg
      | none =>
        cases hnx : findFrom buffer (strOf "<SECTION") (sectionStart + 1) with
        | none => exact hg
        | some nx =>
          dsimp only
          apply ih
          by_cases hc : hasContentTag (subS buffer sectionStart nx) = true
          · rw [if_pos hc]
            unfold gatedOk at hg ⊢
            simp [hg]
            exact hasContentTag_append _ _ hc
          · rw [if_neg hc]
            exact hg

/-- C4 (amended): the minimum-content gate applies exactly to
provisionally completed sections: in every extraction result, each
section whose closing tag was synthesized (flag `true`) contains one of
the literal markers `<H1>`, `<H2>`, `<P>`, `<IMG`.  (Explicitly closed
sections are extracted regardless of content — see the counterexample.) -/
theorem provisional_sections_gated (buffer : Str) :
    gatedOk (extractSectionsFn buffer).1 = true := by
  unfold extractSectionsFn
  exact extractLoopF_gated (buffer.length + 1) buffer _ 0 [] rfl

/-- Parser state after one `parseChunk` of the plain text `abc`. -/
def deltaRunA : ParserState := (parseChunk initialState (strOf "abc")).2

/-- State after a subsequent `parseChunk` of `xyz` (an incremental delta
not sharing the previous prefix). -/
def deltaRunB : ParserState := (parseChunk deltaRunA (strOf "xyz")).2

set_option maxHeartbeats 4000000 in
/-- C4 counterexample: a section closed with only bare raw text and no
heading/paragraph/image is emitted into the deck as a Slide (with empty
content), contrary to the claim that it never appears. -/
def bareTextRun : ParserState :=
  (parseChunk initialState (strOf "<SECTION>just text</SECTION>")).2

theorem closed_bare_section_emitted :
    bareTextRun.parsedSlides.length = 1 ∧
    bareTextRun.parsedSlides.map (fun sl => sl.content.length) = [0] := by
  refine ⟨by decide, by decide⟩

/-- C1 counterexample: on a chunk that does not extend the previous
input (`abc` then `xyz`), the buffer is replaced by the new chunk — the
previously buffered unconsumed bytes `abc` are discarded, not kept with
`xyz` appended. -/
theorem parseChunk_delta_replaces_buffer :
    deltaRunA.buffer = strOf "abc" ∧ deltaRunB.buffer = strOf "xyz" ∧
    deltaRunB.buffer ≠ strOf "abc" ++ strOf "xyz" := by
  refine ⟨by decide, by decide, by decide⟩

/-- C1 (amended): when the chunk passes the reconciliation test (at
least as long as `lastInputLength`, agreeing with the current buffer on
that prefix, previous input nonempty) and the buffer still holds exactly
the first `lastInputLength` characters of the chunk, `parseChunk`
behaves exactly as if the buffer were the whole cumulative text:
only the new suffix is appended before extraction.  Otherwise (see the
counterexample) the buffer is replaced by the chunk verbatim. -/
theorem parseChunk_cumulative_extends (st : ParserState) (chunk : Str)
    (h : reconcileCond { st with latestContent := chunk } chunk = true)
    (hb : st.buffer = chunk.take st.lastInputLength) :
    parseChunk st chunk =
      processSections (extractStep
        { st with latestContent := chunk, buffer := chunk,
                  lastInputLength := chunk.length }) := by
  obtain ⟨b, cs, ps, lil, m, lc, nid⟩ := st
  simp only at hb
  unfold parseChunk
  simp only [h, if_true]
  subst hb
  rw [List.take_append_drop]

/-- State after one cumulative chunk holding an incomplete section. -/
def cumulA : ParserState := (parseChunk initialState (strOf "<SEC")).2

/-- C1 witness: concrete cumulative resend, `<SEC` then `<SECTION`. -/
theorem parseChunk_cumulative_extends_wit :
    parseChunk cumulA (strOf "<SECTION") =
      processSections (extractStep
        { cumulA with latestContent := strOf "<SECTION",
                      buffer := strOf "<SECTION",
                      lastInputLength := (strOf "<SECTION").length }) :=
  parseChunk_cumulative_extends cumulA (strOf "<SECTION") (by decide) (by decide)

/-- Deck state after consuming and finalizing `<SECTION><P>hi` (a
heading-less section whose fingerprint falls below the length-5
threshold, so the identifier falls back to a fresh random name). -/
def fallbackRun1 : ParserState :=
  (finalizeP (parseChunk initialState (strOf "<SECTION><P>hi")).2).2

/-- The same instance after the stream grows the same still-open section
(`<SECTION><P>hi there`) and is finalized again. -/
def fallbackRun2 : ParserState :=
  (finalizeP (parseChunk fallbackRun1 (strOf "<SECTION><P>hi there")).2).2

set_option maxHeartbeats 4000000 in
/-- C2 counterexample: the grown re-parse of the same still-open section
is assigned a different Slide id (3, after 1), because a section with no
`H1` and a fingerprint shorter than 5 characters gets a fresh random
identifier on every re-parse. -/
theorem slideId_fallback_unstable :
    fallbackRun1.parsedSlides.map Slide.id = [1] ∧
    fallbackRun2.parsedSlides.map Slide.id = [1, 3] := by
  refine ⟨by decide, by decide⟩

/-- C2 (amended): whenever the fingerprint is deterministic (a non-empty
`H1` heading, or sorted attributes + child tags of length at least 5),
converting the same-fingerprint section again on the same instance — any
number of other conversions in between — yields the same Slide id. -/
theorem slideId_stable_fingerprint (st : ParserState) (s1 s2 : Str)
    (mid : List Str) (n1 n2 : XMLNode) (f : Str)
    (hn1 : sectionNodeOf s1 = some n1) (hn2 : sectionNodeOf s2 = some n2)
    (hf1 : sectionFingerprint n1 = some f) (hf2 : sectionFingerprint n2 = some f) :
    (convertSectionToSlide
        (convertAll (convertSectionToSlide st s1).2 mid).2 s2).1.id
      = (convertSectionToSlide st s1).1.id := by
  have hA := convert_sets_fp st s1 n1 f hn1 hf1
  have hB := convertAll_mapGet_mono _ mid _ _ hA
  exact convert_uses_fp _ s2 n2 f _ hn2 hf2 hB

/-- Section string with a stable heading fingerprint. -/
def stableSec1 : Str := strOf "<SECTION><H1>T</H1><P>a</SECTION>"

/-- The same logical section, grown by more paragraph text. -/
def stableSec2 : Str := strOf "<SECTION><H1>T</H1><P>ab</SECTION>"

/-- Parsed `SECTION` node of `stableSec1`. -/
def stableN1 : XMLNode := (sectionNodeOf stableSec1).getD rootNodeInit

/-- Parsed `SECTION` node of `stableSec2`. -/
def stableN2 : XMLNode := (sectionNodeOf stableSec2).getD rootNodeInit

/-- The shared fingerprint (`heading-T`) of the two section strings. -/
def stableF : Str := (sectionFingerprint stableN1).getD []

set_option maxHeartbeats 4000000 in
/-- C2 witness: the two concrete grown parses share one Slide id. -/
theorem slideId_stable_fingerprint_wit :
    (convertSectionToSlide
        (convertAll (convertSectionToSlide initialState stableSec1).2 []).2
        stableSec2).1.id
      = (convertSectionToSlide initialState stableSec1).1.id :=
  slideId_stable_fingerprint initialState stableSec1 stableSec2 [] stableN1
    stableN2 stableF (by rfl) (by rfl) (by rfl) (by rfl)

/-- Deck state after consuming and finalizing `<SECTION><H1>T</H1><P>a`. -/
def dupRun1 : ParserState :=
  (finalizeP (parseChunk initialState (strOf "<SECTION><H1>T</H1><P>a")).2).2

/-- The same instance after the grown resend of the same section. -/
def dupRun2 : ParserState :=
  (finalizeP (parseChunk dupRun1 (strOf "<SECTION><H1>T</H1><P>ab")).2).2

set_option maxHeartbeats 4000000 in
/-- C3 counterexample: re-parsing the grown section appends a second
deck entry with the same id instead of replacing the existing Slide —
the deck holds two Slides with id 0. -/
theorem deck_duplicate_id_cex :
    dupRun2.parsedSlides.length = 2 ∧
    dupRun2.parsedSlides.map Slide.id = [0, 0] := by
  refine ⟨by decide, by decide⟩

/-- C3 (amended): re-parsing a section whose fingerprint is already in
the identifier map produces one new Slide carrying the mapped (reused)
id, and `processSections` appends it to the deck, leaving every existing
entry in place (the deck is append-only, so the old same-id entry
remains). -/
theorem reparse_appends_with_same_id (st : ParserState) (s : Str)
    (n : XMLNode) (f : Str) (i : Nat) (hn : sectionNodeOf s = some n)
    (hf : sectionFingerprint n = some f)
    (hm : mapGet st.sectionIdMap (SectionKey.fp f) = some i)
    (hc : st.completedSections = [s]) :
    (processSections st).1.map Slide.id = [i] ∧
    (processSections st).2.parsedSlides
      = st.parsedSlides ++ (processSections st).1 := by
  have hid : (convertSectionToSlide st s).1.id = i :=
    convert_uses_fp st s n f i hn hf hm
  obtain ⟨mnew, nid, hshape⟩ := convert_state_shape st s
  rw [processSections, hc]
  simp only [List.length_cons, List.length_nil, convertAll]
  constructor
  · simp [hid]
  · simp [hshape]

/-- A parser state holding the grown section pending, with its
fingerprint already mapped to id 0. -/
def reparseStateW : ParserState :=
  { dupRun1 with completedSections := [stableSec2] }

set_option maxHeartbeats 4000000 in
/-- C3 witness: the concrete re-parse yields one slide with the reused
id 0, appended after the existing deck entry. -/
theorem reparse_appends_with_same_id_wit :
    (processSections reparseStateW).1.map Slide.id = [0] ∧
    (processSections reparseStateW).2.parsedSlides
      = reparseStateW.parsedSlides ++ (processSections reparseStateW).1 :=
  reparse_appends_with_same_id reparseStateW stableSec2 stableN2 stableF 0
    (by rfl) (by rfl) (by decide) (by rfl)

/-- The complete two-section markup used for the resend comparison. -/
def idemFull : Str :=
  strOf "<SECTION><H1>A</H1><P>a</P></SECTION><SECTION><H1>B</H1><P>b</P></SECTION>"

/-- Deck after feeding the complete markup in one `consume` call. -/
def idemSingle : ParserState := (finalizeP (parseChunk initialState idemFull).2).2

/-- Deck after feeding first the complete first section, then the full
cumulative resend, on a fresh instance. -/
def idemSplit : ParserState :=
  (finalizeP (parseChunk (parseChunk initialState
    (strOf "<SECTION><H1>A</H1><P>a</P></SECTION>")).2 idemFull).2).2

set_option maxHeartbeats 4000000 in
/-- C5: idempotence under full resend fails.  The single-shot feed
produces two slides; the cumulative split feed produces three — the
first section is re-ingested and duplicated (same id 0 twice) because
after extraction the prefix comparison is made against the truncated
buffer rather than the previously seen input. -/
theorem cumulative_resend_duplicates_slides :
    idemSingle.parsedSlides.map Slide.id = [0, 1] ∧
    idemSplit.parsedSlides.map Slide.id = [0, 0, 1] ∧
    idemSingle.parsedSlides.length ≠ idemSplit.parsedSlides.length := by
  refine ⟨by decide, by decide, by decide⟩

/-- C6: the tag tree builder is total — on every input string, however
malformed (unmatched or missing closers, bad attribute quoting, unknown
or truncated tags), `parseXML` terminates and returns the root tree
node; mismatched closers only stop the scan.  Totality of the embedding
is established by the termination argument of `parseLoop`; no error
value or exception path exists. -/
theorem parseXML_total_root (s : Str) :
    (parseXML s).tag = strOf "ROOT" ∧ (parseXML s).attributes = [] ∧
    ∀ extra, parseLoopF (parseLoopMeasure (fixupXml s) 0 + extra) (fixupXml s) 0
        (strOf "ROOT") [] [] =
      parseLoop (fixupXml s) 0 (strOf "ROOT") [] [] := by
  refine ⟨rfl, rfl, fun extra => ?_⟩
  exact parseLoopF_congr _ _ _ _ _ _ _ (by omega) (le_refl _)

/-- Theme colors of the converter (`THEME_COLORS`). -/
structure ThemeColors where
  primary : Str
  secondary : Str
  accent : Str
  background : Str
  text : Str
  heading : Str
  muted : Str

/-- The default theme (`options.theme || THEME_COLORS`; no caller passes
a custom theme). -/
def THEME : ThemeColors :=
  ⟨strOf "3B82F6", strOf "64748B", strOf "8B5CF6", strOf "FFFFFF",
   strOf "1F2937", strOf "111827", strOf "6B7280"⟩

/-- Slide page width in inches (16:9). -/
def SLIDE_W : ℚ := 13.33

/-- Slide page height in inches. -/
def SLIDE_H : ℚ := 7.5

/-- Drawing operation recorded against the pptxgenjs slide object.  The
embedding keeps the option fields the claims speak about (text,
geometry, font size, boldness, fill color, alignment); presentation-only
options (`valign`, `bullet`, line color, sizing mode) are dropped. -/
inductive DrawOp where
  | textOp (text : Str) (x y w h : ℚ) (fontSize : ℚ) (bold : Bool)
      (color : Str) (align : Str)
  | shapeOp (shape : Str) (x y w h : ℚ) (fill : Str)
  | imageOp (path : Str) (x y w h : ℚ)
  | logOp (msg : Str)
  | bgOp (color : Str)
deriving DecidableEq

/-- Whether an operation is a `slide.addImage` call. -/
def isImageOp : DrawOp → Bool
  | DrawOp.imageOp .. => true
  | _ => false

/-- Whether an operation is a `slide.addShape` call. -/
def isShapeOp : DrawOp → Bool
  | DrawOp.shapeOp .. => true
  | _ => false

/-- Join the non-empty extracted texts with single spaces
(`.filter(Boolean).join(" ")`). -/
def joinNonempty (ts : List Str) : Str :=
  List.intercalate (strOf " ") (ts.filter (fun t => !t.isEmpty))

mutual

/-- Function `extractText` of the converter: a run's own text, or the
space-joined non-empty texts of the children. -/
def extractText : SElem → Str
  | SElem.run t _ _ _ => t
  | SElem.el _ ch => joinNonempty (extractTextsOf ch)
  | SElem.li ch => joinNonempty (extractTextsOf ch)
  | SElem.img _ _ ch => joinNonempty (extractTextsOf ch)
  | SElem.icon _ ch => joinNonempty (extractTextsOf ch)
  | SElem.chart _ _ ch => joinNonempty (extractTextsOf ch)

/-- Child traversal of `extractText`. -/
def extractTextsOf : List SElem → List Str
  | [] => []
  | e :: rest => extractText e :: extractTextsOf rest

end

/-- The `type` field of a slide-element object (`none` for bare text
runs, which carry no `type`). -/
def elemTypeName : SElem → Option Str
  | SElem.run .. => none
  | SElem.el ty _ => some ty
  | SElem.li _ => some (strOf "p")
  | SElem.img .. => some (strOf "img")
  | SElem.icon .. => some (strOf "icon")
  | SElem.chart ty _ _ => some ty

/-- The `children` field of a slide-element object (`none` for runs). -/
def childrenOf : SElem → Option (List SElem)
  | SElem.run .. => none
  | SElem.el _ ch => some ch
  | SElem.li ch => some ch
  | SElem.img _ _ ch => some ch
  | SElem.icon _ ch => some ch
  | SElem.chart _ _ ch => some ch

/-- First child whose `type` starts with `h`, extracted as text
(`extractChildHeading`'s loop). -/
def firstHeadingIn : List SElem → Option Str
  | [] => none
  | c :: rest =>
    match elemTypeName c with
    | some ty =>
      if startsWithS (strOf "h") ty then some (extractText c)
      else firstHeadingIn rest
    | none => firstHeadingIn rest

/-- Function `extractChildHeading` of the converter. -/
def extractChildHeading (e : SElem) : Option Str :=
  match childrenOf e with
  | none => none
  | some ch => firstHeadingIn ch

/-- Heading text of an item coerced as the JS truthiness test does:
a missing heading and an empty heading behave identically. -/
def headOf (e : SElem) : Str := (extractChildHeading e).getD []

/-- Font size by heading level (`fontSizes[type] || 24`). -/
def headingFontSize (ty : Str) : ℚ :=
  if ty = strOf "h1" then 36
  else if ty = strOf "h2" then 28
  else if ty = strOf "h3" then 24
  else if ty = strOf "h4" then 20
  else if ty = strOf "h5" then 18
  else if ty = strOf "h6" then 16
  else 24

/-- Function `addHeading` of the converter. -/
def addHeading (e : SElem) (x y w : ℚ) : List DrawOp × ℚ :=
  match headingFontSize ((elemTypeName e).getD []) with
  | fs =>
    ([DrawOp.textOp (extractText e) x y w (fs / 72 + 0.3) fs true THEME.heading []],
     y + (fs / 72 + 0.3) + 0.2)

/-- Function `addParagraph` of the converter. -/
def addParagraph (e : SElem) (x y w : ℚ) : List DrawOp × ℚ :=
  ([DrawOp.textOp (extractText e) x y w 0.8 14 false THEME.text []], y + 0.9)

/-- Item loop of `addBullets`: optional bold heading line, then an
indented bulleted line when the text is non-empty and differs from the
heading. -/
def bulletsGo (x w : ℚ) : List SElem → ℚ → List DrawOp × ℚ
  | [], y => ([], y)
  | item :: rest, y =>
    match
      (if headOf item ≠ [] then
        ([DrawOp.textOp (headOf item) x y w 0.4 16 true THEME.heading []], y + 0.4)
      else ([], y)) with
    | (ops1, y1) =>
      match
        (if extractText item ≠ [] ∧ extractText item ≠ headOf item then
          ([DrawOp.textOp (extractText item) (x + 0.3) y1 (w - 0.3) 0.5 14 false
              THEME.text []], y1 + 0.5)
        else ([], y1)) with
      | (ops2, y2) =>
        match bulletsGo x w rest y2 with
        | (ops3, y3) => (ops1 ++ ops2 ++ ops3, y3)

/-- Function `addBullets` of the converter. -/
def addBullets (e : SElem) (x y w : ℚ) : List DrawOp × ℚ :=
  match bulletsGo x w ((childrenOf e).getD []) y with
  | (ops, yf) => (ops, yf + 0.3)

/-- Item loop of `addIcons`: circle placeholder, centered heading and
description; `currentX` resets every 4 items. -/
def iconsGo (x y w itemW : ℚ) : List SElem → Nat → ℚ → List DrawOp
  | [], _, _ => []
  | item :: rest, i, currentX =>
    [DrawOp.shapeOp (strOf "ellipse") (currentX + itemW / 2 - 0.3) y 0.6 0.6
      THEME.primary] ++
    (if headOf item ≠ [] then
      [DrawOp.textOp (headOf item) currentX (y + 0.7) itemW 0.4 14 true
        THEME.heading (strOf "center")]
    else []) ++
    (if extractText item ≠ [] ∧ extractText item ≠ headOf item then
      [DrawOp.textOp (extractText item) currentX (y + 1.1) itemW 0.6 12 false
        THEME.text (strOf "center")]
    else []) ++
    iconsGo x y w itemW rest (i + 1)
      (if (i + 1) % 4 = 0 then x else currentX + itemW)

/-- Function `addIcons` of the converter (`w / min(count, 4)` per item;
a rational division by zero for an empty item list is never observed,
matching the JS `Infinity` that no emitted op ever uses). -/
def addIcons (e : SElem) (x y w : ℚ) : List DrawOp × ℚ :=
  (iconsGo x y w (w / (min ((childrenOf e).getD []).length 4 : Nat))
    ((childrenOf e).getD []) 0 x, y + 2)

/-- Item loop of `addTimeline`: a dot plus centered heading/description
per item. -/
def timelineGo (y itemW : ℚ) : List SElem → ℚ → List DrawOp
  | [], _ => []
  | item :: rest, currentX =>
    [DrawOp.shapeOp (strOf "ellipse") (currentX + itemW / 2 - 0.15) (y + 0.175)
      0.3 0.3 THEME.primary] ++
    (if headOf item ≠ [] then
      [DrawOp.textOp (headOf item) currentX (y + 0.6) itemW 0.4 14 true
        THEME.heading (strOf "center")]
    else []) ++
    (if extractText item ≠ [] ∧ extractText item ≠ headOf item then
      [DrawOp.textOp (extractText item) currentX (y + 1) itemW 0.6 12 false
        THEME.text (strOf "center")]
    else []) ++
    timelineGo y itemW rest (currentX + itemW)

/-- Function `addTimeline` of the converter: horizontal line, then the
items (division by an empty item count again unobservable). -/
def addTimeline (e : SElem) (x y w : ℚ) : List DrawOp × ℚ :=
  (DrawOp.shapeOp (strOf "rect") x (y + 0.3) w 0.05 THEME.primary ::
    timelineGo y (w / (((childrenOf e).getD []).length : Nat)) ((childrenOf e).getD []) x,
   y + 2)

/-- Item loop of `addArrows`: filled box with white heading/description,
an arrow separator between consecutive items. -/
def arrowsGo (y itemW : ℚ) : List SElem → ℚ → List DrawOp
  | [], _ => []
  | item :: rest, currentX =>
    [DrawOp.shapeOp (strOf "rect") currentX y itemW 1.2 THEME.primary] ++
    (if headOf item ≠ [] then
      [DrawOp.textOp (headOf item) currentX (y + 0.1) itemW 0.4 14 true
        (strOf "FFFFFF") (strOf "center")]
    else []) ++
    (if extractText item ≠ [] ∧ extractText item ≠ headOf item then
      [DrawOp.textOp (extractText item) currentX (y + 0.5) itemW 0.6 11 false
        (strOf "FFFFFF") (strOf "center")]
    else []) ++
    (if rest.length > 0 then
      [DrawOp.textOp (strOf "→") (currentX + itemW) (y + 0.4) 0.3 0.4 24 false
        THEME.primary (strOf "center")]
    else []) ++
    arrowsGo y itemW rest (currentX + itemW + 0.3)

/-- Function `addArrows` of the converter. -/
def addArrows (e : SElem) (x y w : ℚ) : List DrawOp × ℚ :=
  (arrowsGo y ((w - ((((childrenOf e).getD []).length : ℚ) - 1) * 0.3) /
      (((childrenOf e).getD []).length : Nat)) ((childrenOf e).getD []) x,
   y + 1.5)

/-- Item loop of `addBoxes`: rounded box with heading/description,
wrapping into rows of `cols` items. -/
def boxesGo (x itemW : ℚ) (cols : Nat) : List SElem → Nat → ℚ → ℚ → List DrawOp × ℚ
  | [], _, _, currentY => ([], currentY)
  | item :: rest, i, currentX, currentY =>
    match boxesGo x itemW cols rest (i + 1)
        (if (i + 1) % cols = 0 then x else currentX + itemW + 0.2)
        (if (i + 1) % cols = 0 then currentY + 1.4 else currentY) with
    | (ops, yf) =>
      ([DrawOp.shapeOp (strOf "roundRect") currentX currentY itemW 1.2
          (strOf "F3F4F6")] ++
       (if headOf item ≠ [] then
         [DrawOp.textOp (headOf item) currentX (currentY + 0.2) itemW 0.4 14 true
           THEME.heading (strOf "center")]
       else []) ++
       (if extractText item ≠ [] ∧ extractText item ≠ headOf item then
         [DrawOp.textOp (extractText item) currentX (currentY + 0.6) itemW 0.5 12
           false THEME.text (strOf "center")]
       else []) ++ ops, yf)

/-- Function `addBoxes` of the converter. -/
def addBoxes (e : SElem) (x y w : ℚ) : List DrawOp × ℚ :=
  match boxesGo x
      ((w - (((min ((childrenOf e).getD []).length 3 : Nat) : ℚ) - 1) * 0.2) /
        (min ((childrenOf e).getD []).length 3 : Nat))
      (min ((childrenOf e).getD []).length 3) ((childrenOf e).getD []) 0 x y with
  | (ops, yf) => (ops, yf + 1.4)

/-- One column of `addCompare`: colored header band, optional header
text, optional body text. -/
def compareColumn (item : SElem) (colX y colW : ℚ) (fill : Str) : List DrawOp :=
  [DrawOp.shapeOp (strOf "rect") colX y colW 0.5 fill] ++
  (if headOf item ≠ [] then
    [DrawOp.textOp (headOf item) colX y colW 0.5 14 true (strOf "FFFFFF")
      (strOf "center")]
  else []) ++
  (if extractText item ≠ [] ∧ extractText item ≠ headOf item then
    [DrawOp.textOp (extractText item) colX (y + 0.6) colW 1.5 12 false THEME.text []]
  else [])

/-- Function `addCompare` of the converter: the loop runs over the first
`min(length, 2)` items, one fixed-width column each. -/
def addCompare (e : SElem) (x y w : ℚ) : List DrawOp × ℚ :=
  (match (childrenOf e).getD [] with
   | [] => []
   | [a] => compareColumn a x y ((w - 0.3) / 2) THEME.primary
   | a :: b :: _ =>
     compareColumn a x y ((w - 0.3) / 2) THEME.primary ++
     compareColumn b (x + ((w - 0.3) / 2 + 0.3)) y ((w - 0.3) / 2) THEME.accent,
   y + 2.2)

/-- Item loop of `addPyramid`: level `i` of `n` gets width
`((n − i) / n) · w · 0.8`, centered. -/
def pyramidGo (x w : ℚ) (n : Nat) : List SElem → Nat → ℚ → List DrawOp × ℚ
  | [], _, currentY => ([], currentY)
  | item :: rest, i, currentY =>
    match pyramidGo x w n rest (i + 1) (currentY + 0.8) with
    | (ops, yf) =>
      ([DrawOp.shapeOp (strOf "rect")
          (x + (w - ((n : ℚ) - i) / (n : ℚ) * w * 0.8) / 2) currentY
          (((n : ℚ) - i) / (n : ℚ) * w * 0.8) 0.7 THEME.primary] ++
       (if (if headOf item ≠ [] then headOf item else extractText item) ≠ [] then
         [DrawOp.textOp (if headOf item ≠ [] then headOf item else extractText item)
           (x + (w - ((n : ℚ) - i) / (n : ℚ) * w * 0.8) / 2) currentY
           (((n : ℚ) - i) / (n : ℚ) * w * 0.8) 0.7 12 (headOf item ≠ [])
           (strOf "FFFFFF") (strOf "center")]
       else []) ++ ops, yf)

/-- Function `addPyramid` of the converter. -/
def addPyramid (e : SElem) (x y w : ℚ) : List DrawOp × ℚ :=
  match pyramidGo x w ((childrenOf e).getD []).length ((childrenOf e).getD []) 0 y with
  | (ops, yf) => (ops, yf + 0.3)

/-- Item loop of `addCycle`.  `cosA`/`sinA` abstract
`t ↦ Math.cos(t·2π − π/2)` and `t ↦ Math.sin(t·2π − π/2)`: trigonometry
enters only through the emitted coordinates and no claim depends on its
values. -/
def cycleGo (cosA sinA : ℚ → ℚ) (centerX centerY : ℚ) (n : Nat) :
    List SElem → Nat → List DrawOp
  | [], _ => []
  | item :: rest, i =>
    [DrawOp.shapeOp (strOf "ellipse")
      (centerX + cosA ((i : ℚ) / (n : ℚ)) * 1 - 0.4)
      (centerY + sinA ((i : ℚ) / (n : ℚ)) * 1 - 0.3) 0.8 0.6 THEME.primary] ++
    (if (if headOf item ≠ [] then headOf item else extractText item) ≠ [] then
      [DrawOp.textOp
        ((if headOf item ≠ [] then headOf item else extractText item).take 20)
        (centerX + cosA ((i : ℚ) / (n : ℚ)) * 1 - 0.4)
        (centerY + sinA ((i : ℚ) / (n : ℚ)) * 1 - 0.3) 0.8 0.6 10 false
        (strOf "FFFFFF") (strOf "center")]
    else []) ++
    cycleGo cosA sinA centerX centerY n rest (i + 1)

/-- Function `addCycle` of the converter. -/
def addCycle (cosA sinA : ℚ → ℚ) (e : SElem) (x y w : ℚ) : List DrawOp × ℚ :=
  (cycleGo cosA sinA (x + w / 2) (y + 1.2) ((childrenOf e).getD []).length
    ((childrenOf e).getD []) 0, y + 2.8)

/-- Function `addElement` of the converter: dispatch on `element.type`;
unknown types (including the six chart types, tables, staircase,
before-after and pros-cons) fall to the generic extract-all-text path. -/
def addElementOps (cosA sinA : ℚ → ℚ) (e : SElem) (x y w : ℚ) : List DrawOp × ℚ :=
  match elemTypeName e with
  | some ty =>
    if ty = strOf "h1" ∨ ty = strOf "h2" ∨ ty = strOf "h3" ∨ ty = strOf "h4" ∨
        ty = strOf "h5" ∨ ty = strOf "h6" then
      addHeading e x y w
    else if ty = strOf "p" then addParagraph e x y w
    else if ty = strOf "bullets" then addBullets e x y w
    else if ty = strOf "icons" then addIcons e x y w
    else if ty = strOf "timeline" then addTimeline e x y w
    else if ty = strOf "arrows" then addArrows e x y w
    else if ty = strOf "boxes" then addBoxes e x y w
    else if ty = strOf "compare" then addCompare e x y w
    else if ty = strOf "pyramid" then addPyramid e x y w
    else if ty = strOf "cycle" then addCycle cosA sinA e x y w
    else if extractText e ≠ [] then
      ([DrawOp.textOp (extractText e) x y w 0.5 14 false THEME.text []], y + 0.6)
    else ([], y)
  | none =>
    if extractText e ≠ [] then
      ([DrawOp.textOp (extractText e) x y w 0.5 14 false THEME.text []], y + 0.6)
    else ([], y)

/-- Layout configuration (`LAYOUTS` table). -/
structure LayoutConfig where
  imageX : ℚ
  imageW : ℚ
  imageH : Option ℚ
  contentX : Option ℚ
  contentW : Option ℚ
  contentY : Option ℚ

/-- The `LAYOUTS` table, keyed on the layout name.  Only the four valid
names reach this lookup through the parser (`validLayout`); the
catch-all arm mirrors the `vertical` entry and is unreachable from
parser-produced decks. -/
def layoutsFor (layout : Str) : LayoutConfig :=
  if layout = strOf "left" then ⟨0.5, 5, none, some 6, some 6.5, none⟩
  else if layout = strOf "right" then ⟨7.5, 5, none, some 0.5, some 6.5, none⟩
  else if layout = strOf "background" then
    ⟨0, SLIDE_W, some SLIDE_H, none, none, none⟩
  else ⟨0.5, 12.33, some 3.5, none, none, some 4⟩

/-- Function `addImage` of the converter: one `slide.addImage` call with
layout-dependent geometry, wrapped in the source's `try`/`catch` —
a failing embed (per the `oracle`) is replaced by the logged error and
nothing else. -/
def addImageOps (oracle : DrawOp → Bool) (ri : RootImg) (layout : Str) :
    List DrawOp :=
  if (ri.url.getD []).isEmpty then []
  else
    match layoutsFor layout with
    | cfg =>
      match
        (if layout = strOf "left" ∨ layout = strOf "right" then
          DrawOp.imageOp (ri.url.getD []) cfg.imageX 0.5 cfg.imageW (SLIDE_H - 1)
        else if layout = strOf "vertical" then
          DrawOp.imageOp (ri.url.getD []) cfg.imageX 0.5 cfg.imageW
            (cfg.imageH.getD (SLIDE_H - 1))
        else if layout = strOf "background" then
          DrawOp.imageOp (ri.url.getD []) 0 0 SLIDE_W SLIDE_H
        else
          DrawOp.imageOp (ri.url.getD []) 0 0 cfg.imageW
            (cfg.imageH.getD (SLIDE_H - 1))) with
      | op => if oracle op then [DrawOp.logOp (strOf "Error adding image:")] else [op]

/-- Whether the slide has a truthy `rootImage?.url`. -/
def hasRootUrl (sl : Slide) : Bool :=
  match sl.rootImage with
  | some ri => !(ri.url.getD []).isEmpty
  | none => false

/-- Content region of a slide (`contentX`/`contentY`/`contentW` in
`exportToPPTX`), depending on layout and image presence. -/
def contentRegion (layout : Str) (hasImg : Bool) : ℚ × ℚ × ℚ :=
  if layout = strOf "left" ∧ hasImg = true then (6, 0.5, 6.5)
  else if layout = strOf "right" ∧ hasImg = true then (0.5, 0.5, 6.5)
  else if layout = strOf "vertical" ∧ hasImg = true then (0.5, 4, SLIDE_W - 1)
  else (0.5, 0.5, SLIDE_W - 1)

/-- The element loop of `exportToPPTX`: thread the vertical cursor
through `addElement` over the slide's content. -/
def elementsOpsGo (cosA sinA : ℚ → ℚ) (x w : ℚ) : List SElem → ℚ → List DrawOp
  | [], _ => []
  | e :: rest, y =>
    match addElementOps cosA sinA e x y w with
    | (ops, y1) => ops ++ elementsOpsGo cosA sinA x w rest y1

/-- Decimal digits of a slide number (`${i + 1}`). -/
def natToStr (n : Nat) : Str := strOf (Nat.repr n)

/-- All pptxgenjs calls made for one slide, in order: background, root
image (when its `url` is set), content elements top-down, slide number.
Parser-produced slides carry no `bgColor`, so the background is always
the theme color. -/
def slideOps (oracle : DrawOp → Bool) (cosA sinA : ℚ → ℚ) (i : Nat)
    (sl : Slide) : List DrawOp :=
  match sl.layoutType.getD (strOf "vertical") with
  | layout =>
    match contentRegion layout (hasRootUrl sl) with
    | (cx, cy, cw) =>
      DrawOp.bgOp THEME.background ::
      (match sl.rootImage with
       | some ri => if hasRootUrl sl then addImageOps oracle ri layout else []
       | none => []) ++
      elementsOpsGo cosA sinA cx cw sl.content cy ++
      [DrawOp.textOp (natToStr (i + 1)) (SLIDE_W - 0.5) (SLIDE_H - 0.4) 0.3 0.3 10
        false THEME.muted (strOf "right")]

/-- Exception semantics of the pptxgenjs calls: running the recorded
operations in order, a call on which the failure oracle fires throws and
aborts everything after it (there is no catch outside `addImage`);
`console.error` logs and the background assignment cannot fail. -/
def runOps (oracle : DrawOp → Bool) : List DrawOp → Except Unit (List DrawOp)
  | [] => Except.ok []
  | op :: rest =>
    match op with
    | DrawOp.logOp m =>
      (runOps oracle rest).map (fun l => DrawOp.logOp m :: l)
    | DrawOp.bgOp c =>
      (runOps oracle rest).map (fun l => DrawOp.bgOp c :: l)
    | op =>
      if oracle op then Except.error ()
      else (runOps oracle rest).map (fun l => op :: l)

/-- The slide loop of `exportToPPTX` from slide index `i`: each slide's
calls run in order; an uncaught exception aborts the remaining slides. -/
def serializeSlidesFrom (oracle : DrawOp → Bool) (cosA sinA : ℚ → ℚ) :
    Nat → List Slide → Except Unit (List (List DrawOp))
  | _, [] => Except.ok []
  | i, sl :: rest =>
    match runOps oracle (slideOps oracle cosA sinA i sl) with
    | Except.error e => Except.error e
    | Except.ok ops =>
      match serializeSlidesFrom oracle cosA sinA (i + 1) rest with
      | Except.error e => Except.error e
      | Except.ok rest1 => Except.ok (ops :: rest1)

/-- Function `exportToPPTX` restricted to its per-slide drawing calls:
the deck is serialized slide by slide, one operation list per slide. -/
def serializeDeck (oracle : DrawOp → Bool) (cosA sinA : ℚ → ℚ)
    (slides : List Slide) : Except Unit (List (List DrawOp)) :=
  serializeSlidesFrom oracle cosA sinA 0 slides

/-- No `addImage` call among a list of operations. -/
def imageFree (l : List DrawOp) : Bool := l.all (fun op => !isImageOp op)

@[simp] theorem isImageOp_textOp (t : Str) (x y w h fs : ℚ) (b : Bool) (c a : Str) :
    isImageOp (DrawOp.textOp t x y w h fs b c a) = false := rfl

@[simp] theorem isImageOp_shapeOp (s : Str) (x y w h : ℚ) (f : Str) :
    isImageOp (DrawOp.shapeOp s x y w h f) = false := rfl

@[simp] theorem isImageOp_logOp (m : Str) : isImageOp (DrawOp.logOp m) = false := rfl

@[simp] theorem isImageOp_bgOp (c : Str) : isImageOp (DrawOp.bgOp c) = false := rfl

@[simp] theorem imageFree_nil : imageFree [] = true := rfl

@[simp] theorem imageFree_cons (op : DrawOp) (l : List DrawOp) :
    imageFree (op :: l) = (!isImageOp op && imageFree l) := by
  simp [imageFree]

@[simp] theorem imageFree_append (a b : List DrawOp) :
    imageFree (a ++ b) = (imageFree a && imageFree b) := by
  simp [imageFree, List.all_append]

@[simp] theorem imageFree_ite (c : Prop) [Decidable c] (a b : List DrawOp) :
    imageFree (if c then a else b) = (if c then imageFree a else imageFree b) := by
  split <;> rfl

theorem bulletsGo_imageFree (x w : ℚ) :
    ∀ items y, imageFree (bulletsGo x w items y).1 = true := by
  intro items
  induction items with
  | nil => intro y; rfl
  | cons item rest ih =>
    intro y
    rw [bulletsGo]
    cases hs1 : (if headOf item ≠ [] then
        ([DrawOp.textOp (headOf item) x y w 0.4 16 true THEME.heading []], y + 0.4)
      else ([], y)) with
    | mk ops1 y1 =>
      cases hs2 : (if extractText item ≠ [] ∧ extractText item ≠ headOf item then
          ([DrawOp.textOp (extractText item) (x + 0.3) y1 (w - 0.3) 0.5 14 false
              THEME.text []], y1 + 0.5)
        else ([], y1)) with
      | mk ops2 y2 =>
        cases hs3 : bulletsGo x w rest y2 with
        | mk ops3 y3 =>
          have hops1 : imageFree ops1 = true := by
            split at hs1 <;> (injection hs1 with e1 e2; subst e1; simp)
          have hops2 : imageFree ops2 = true := by
            split at hs2 <;> (injection hs2 with e1 e2; subst e1; simp)
          have hops3 : imageFree ops3 = true := by
            have := ih y2
            rw [hs3] at this
            exact this
          simp_all

theorem iconsGo_imageFree (x y w itemW : ℚ) :
    ∀ items i currentX, imageFree (iconsGo x y w itemW items i currentX) = true := by
  intro items
  induction items with
  | nil => intro i cx; rfl
  | cons item rest ih =>
    intro i cx
    rw [iconsGo]
    simp [ih]

theorem timelineGo_imageFree (y itemW : ℚ) :
    ∀ items currentX, imageFree (timelineGo y itemW items currentX) = true := by
  intro items
  induction items with
  | nil => intro cx; rfl
  | cons item rest ih =>
    intro cx
    rw [timelineGo]
    simp [ih]

theorem arrowsGo_imageFree (y itemW : ℚ) :
    ∀ items currentX, imageFree (arrowsGo y itemW items currentX) = true := by
  intro items
  induction items with
  | nil => intro cx; rfl
  | cons item rest ih =>
    intro cx
    rw [arrowsGo]
    simp [ih]

theorem boxesGo_imageFree (x itemW : ℚ) (cols : Nat) :
    ∀ items i currentX currentY,
      imageFree (boxesGo x itemW cols items i currentX currentY).1 = true := by
  intro items
  induction items with
  | nil => intro i cx cy; rfl
  | cons item rest ih =>
    intro i cx cy
    rw [boxesGo]
    cases hs : boxesGo x itemW cols rest (i + 1)
        (if (i + 1) % cols = 0 then x else cx + itemW + 0.2)
        (if (i + 1) % cols = 0 then cy + 1.4 else cy) with
    | mk ops yf =>
      have hops : imageFree ops = true := by
        have := ih (i + 1) (if (i + 1) % cols = 0 then x else cx + itemW + 0.2)
          (if (i + 1) % cols = 0 then cy + 1.4 else cy)
        rw [hs] at this
        exact this
      simp_all

theorem compareColumn_imageFree (item : SElem) (colX y colW : ℚ) (fill : Str) :
    imageFree (compareColumn item colX y colW fill) = true := by
  rw [compareColumn]
  simp

theorem pyramidGo_imageFree (x w : ℚ) (n : Nat) :
    ∀ items i currentY, imageFree (pyramidGo x w n items i currentY).1 = true := by
  intro items
  induction items with
  | nil => intro i cy; rfl
  | cons item rest ih =>
    intro i cy
    rw [pyramidGo]
    cases hs : pyramidGo x w n rest (i + 1) (cy + 0.8) with
    | mk ops yf =>
      have hops : imageFree ops = true := by
        have := ih (i + 1) (cy + 0.8)
        rw [hs] at this
        exact this
      simp_all

theorem cycleGo_imageFree (cosA sinA : ℚ → ℚ) (centerX centerY : ℚ) (n : Nat) :
    ∀ items i, imageFree (cycleGo cosA sinA centerX centerY n items i) = true := by
  intro items
  induction items with
  | nil => intro i; rfl
  | cons item rest ih =>
    intro i
    rw [cycleGo]
    simp [ih]

@[simp] theorem imageFree_fst_ite (c : Prop) [Decidable c] (a b : List DrawOp × ℚ) :
    imageFree (if c then a else b).1 = (if c then imageFree a.1 else imageFree b.1) := by
  split <;> rfl

theorem addElementOps_imageFree (cosA sinA : ℚ → ℚ) (e : SElem) (x y w : ℚ) :
    imageFree (addElementOps cosA sinA e x y w).1 = true := by
  have hh : imageFree (addHeading e x y w).1 = true := rfl
  have hp : imageFree (addParagraph e x y w).1 = true := rfl
  have hb : imageFree (addBullets e x y w).1 = true := by
    rw [addBullets]
    cases hs : bulletsGo x w ((childrenOf e).getD []) y with
    | mk ops yf =>
      have := bulletsGo_imageFree x w ((childrenOf e).getD []) y
      rw [hs] at this
      simpa using this
  have hi : imageFree (addIcons e x y w).1 = true := by
    rw [addIcons]
    simpa using iconsGo_imageFree _ _ _ _ _ _ _
  have ht : imageFree (addTimeline e x y w).1 = true := by
    rw [addTimeline]
    simpa using timelineGo_imageFree _ _ _ _
  have ha : imageFree (addArrows e x y w).1 = true := by
    rw [addArrows]
    simpa using arrowsGo_imageFree _ _ _ _
  have hx : imageFree (addBoxes e x y w).1 = true := by
    rw [addBoxes]
    cases hs : boxesGo x
        ((w - (((min ((childrenOf e).getD []).length 3 : Nat) : ℚ) - 1) * 0.2) /
          (min ((childrenOf e).getD []).length 3 : Nat))
        (min ((childrenOf e).getD []).length 3)
        ((childrenOf e).getD []) 0 x y with
    | mk ops yf =>
      have := boxesGo_imageFree x
        ((w - (((min ((childrenOf e).getD []).length 3 : Nat) : ℚ) - 1) * 0.2) /
          (min ((childrenOf e).getD []).length 3 : Nat))
        (min ((childrenOf e).getD []).length 3)
        ((childrenOf e).getD []) 0 x y
      rw [hs] at this
      simpa using this
  have hc : imageFree (addCompare e x y w).1 = true := by
    rw [addCompare]
    dsimp only
    split <;> simp [compareColumn_imageFree]
  have hpy : imageFree (addPyramid e x y w).1 = true := by
    rw [addPyramid]
    cases hs : pyramidGo x w ((childrenOf e).getD []).length
        ((childrenOf e).getD []) 0 y with
    | mk ops yf =>
      have := pyramidGo_imageFree x w ((childrenOf e).getD []).length
        ((childrenOf e).getD []) 0 y
      rw [hs] at this
      simpa using this
  have hcy : imageFree (addCycle cosA sinA e x y w).1 = true := by
    rw [addCycle]
    simpa using cycleGo_imageFree _ _ _ _ _ _ _
  rw [addElementOps]
  cases elemTypeName e with
  | none =>
    dsimp only
    split <;> simp
  | some ty =>
    dsimp only
    simp only [imageFree_fst_ite, hh, hp, hb, hi, ht, ha, hx, hc, hpy, hcy,
      imageFree_cons, imageFree_nil, isImageOp_textOp, Bool.not_false, Bool.and_self,
      ite_self]

theorem elementsOpsGo_imageFree (cosA sinA : ℚ → ℚ) (x w : ℚ) :
    ∀ els y, imageFree (elementsOpsGo cosA sinA x w els y) = true := by
  intro els
  induction els with
  | nil => intro y; rfl
  | cons e rest ih =>
    intro y
    rw [elementsOpsGo]
    cases hs : addElementOps cosA sinA e x y w with
    | mk ops y1 =>
      have h1 := addElementOps_imageFree cosA sinA e x y w
      rw [hs] at h1
      simp_all

/-- A pptxgenjs call on which `runOps` cannot fail: logging and the
background assignment always pass, any other call passes exactly when
the failure oracle does not fire on it. -/
def opPasses (oracle : DrawOp → Bool) (op : DrawOp) : Bool :=
  match op with
  | DrawOp.logOp _ => true
  | DrawOp.bgOp _ => true
  | op => !oracle op

theorem runOps_ok (oracle : DrawOp → Bool) :
    ∀ ops, (∀ op ∈ ops, opPasses oracle op = true) →
      runOps oracle ops = Except.ok ops := by
  intro ops
  induction ops with
  | nil => intro h; rfl
  | cons op rest ih =>
    intro h
    have hop := h op (List.mem_cons_self op rest)
    have hrest : ∀ o ∈ rest, opPasses oracle o = true :=
      fun o ho => h o (List.mem_cons_of_mem op ho)
    cases op with
    | logOp m => rw [runOps, ih hrest]; rfl
    | bgOp c => rw [runOps, ih hrest]; rfl
    | textOp t x y w hh fs b c a =>
      simp only [opPasses, Bool.not_eq_true'] at hop
      rw [runOps, ih hrest]
      all_goals simp [hop, Except.map]
    | shapeOp s x y w hh f =>
      simp only [opPasses, Bool.not_eq_true'] at hop
      rw [runOps, ih hrest]
      all_goals simp [hop, Except.map]
    | imageOp p x y w hh =>
      simp only [opPasses, Bool.not_eq_true'] at hop
      rw [runOps, ih hrest]
      all_goals simp [hop, Except.map]

theorem opPasses_of_nonimage (oracle : DrawOp → Bool)
    (H : ∀ op, oracle op = true → isImageOp op = true) (op : DrawOp)
    (hni : isImageOp op = false) : opPasses oracle op = true := by
  have hfalse : oracle op = false := by
    cases hor : oracle op with
    | false => rfl
    | true => rw [H op hor] at hni; exact absurd hni (by simp)
  cases op with
  | logOp m => rfl
  | bgOp c => rfl
  | textOp t x y w hh fs b c a => simp [opPasses, hfalse]
  | shapeOp s x y w hh f => simp [opPasses, hfalse]
  | imageOp p x y w hh => simp [opPasses, hfalse]

theorem passes_ite_image (oracle : DrawOp → Bool) (msg u : Str) (a b c d : ℚ)
    (op : DrawOp)
    (hop : op ∈ if oracle (DrawOp.imageOp u a b c d) = true
        then [DrawOp.logOp msg] else [DrawOp.imageOp u a b c d]) :
    opPasses oracle op = true := by
  by_cases hor : oracle (DrawOp.imageOp u a b c d) = true
  · rw [if_pos hor] at hop
    simp only [List.mem_singleton] at hop
    subst hop
    rfl
  · rw [if_neg hor] at hop
    simp only [List.mem_singleton] at hop
    subst hop
    simp only [Bool.not_eq_true] at hor
    simp [opPasses, hor]

theorem addImageOps_passes (oracle : DrawOp → Bool) (ri : RootImg) (layout : Str) :
    ∀ op ∈ addImageOps oracle ri layout, opPasses oracle op = true := by
  intro op hop
  rw [addImageOps] at hop
  split at hop
  · exact absurd hop (by simp)
  · repeat' split at hop
    all_goals exact passes_ite_image oracle _ _ _ _ _ _ op hop

theorem mem_imageFree_nonimage {l : List DrawOp} (hl : imageFree l = true)
    {op : DrawOp} (hop : op ∈ l) : isImageOp op = false := by
  simp only [imageFree, List.all_eq_true] at hl
  simpa using hl op hop

theorem slideOps_passes (oracle : DrawOp → Bool) (cosA sinA : ℚ → ℚ)
    (H : ∀ op, oracle op = true → isImageOp op = true) (i : Nat) (sl : Slide) :
    ∀ op ∈ slideOps oracle cosA sinA i sl, opPasses oracle op = true := by
  intro op hop
  rw [slideOps] at hop
  rcases hcr : contentRegion (sl.layoutType.getD (strOf "vertical")) (hasRootUrl sl)
    with ⟨cx, cy, cw⟩
  rw [hcr] at hop
  dsimp only at hop
  simp only [List.mem_cons, List.mem_append, List.mem_singleton, List.not_mem_nil,
    or_false] at hop
  rcases hop with ((hbg | himg) | hel) | hnum
  · subst hbg; rfl
  · rcases hroot : sl.rootImage with _ | ri
    · rw [hroot] at himg
      exact absurd himg (by simp)
    · rw [hroot] at himg
      dsimp only at himg
      split at himg
      · exact addImageOps_passes oracle ri _ op himg
      · exact absurd himg (by simp)
  · exact opPasses_of_nonimage oracle H op
      (mem_imageFree_nonimage (elementsOpsGo_imageFree cosA sinA cx cw sl.content cy) hel)
  · subst hnum; exact opPasses_of_nonimage oracle H _ rfl

theorem serializeSlidesFrom_ok (oracle : DrawOp → Bool) (cosA sinA : ℚ → ℚ)
    (H : ∀ op, oracle op = true → isImageOp op = true) :
    ∀ slides i, ∃ l, serializeSlidesFrom oracle cosA sinA i slides = Except.ok l ∧
      l.length = slides.length := by
  intro slides
  induction slides with
  | nil => intro i; exact ⟨[], rfl, rfl⟩
  | cons sl rest ih =>
    intro i
    obtain ⟨l, hl, hlen⟩ := ih (i + 1)
    refine ⟨slideOps oracle cosA sinA i sl :: l, ?_, by simp [hlen]⟩
    rw [serializeSlidesFrom,
      runOps_ok oracle (slideOps oracle cosA sinA i sl)
        (slideOps_passes oracle cosA sinA H i sl), hl]

/-- C7 (amended): during serialization of a deck, an image-embed failure
is caught per image (`addImage`'s `try`/`catch`) and is not fatal: when
the failure oracle fires only on `addImage` calls, every slide of the
deck is still emitted.  (The other half of the original claim is false:
`addElement` has no `try`/`catch`, so a throwing element layout call
aborts the export — see `element_failure_aborts_export`.) -/
theorem serialize_imageFailure_not_fatal (oracle : DrawOp → Bool)
    (cosA sinA : ℚ → ℚ) (slides : List Slide)
    (H : ∀ op, oracle op = true → isImageOp op = true) :
    ∃ l, serializeDeck oracle cosA sinA slides = Except.ok l ∧
      l.length = slides.length :=
  serializeSlidesFrom_ok oracle cosA sinA H slides 0

/-- Deck used to witness `serialize_imageFailure_not_fatal`: a slide
with a root image (whose embed fails) followed by a plain slide. -/
def w7Slide1 : Slide :=
  { id := 0,
    content := [SElem.el (strOf "p") [SElem.run (strOf "hello") false false false]],
    rootImage := some ⟨strOf "cat", some (strOf "cat.png"), some (strOf "left")⟩,
    layoutType := some (strOf "left"),
    alignment := strOf "center" }

def w7Slide2 : Slide :=
  { id := 1,
    content := [SElem.el (strOf "h1") [SElem.run (strOf "Title") false false false]],
    rootImage := none,
    layoutType := none,
    alignment := strOf "center" }

theorem serialize_imageFailure_not_fatal_witness :
    (∀ op, isImageOp op = true → isImageOp op = true) ∧
    ∃ l, serializeDeck isImageOp (fun _ => 0) (fun _ => 0) [w7Slide1, w7Slide2]
        = Except.ok l ∧ l.length = [w7Slide1, w7Slide2].length :=
  ⟨fun _ h => h,
   serialize_imageFailure_not_fatal isImageOp (fun _ => 0) (fun _ => 0)
     [w7Slide1, w7Slide2] (fun _ h => h)⟩

/-- Failure oracle of the counterexample: the `addText` call for the
text `boom` throws; nothing else does.  In particular no `addImage`
call fails. -/
def c7Oracle : DrawOp → Bool := fun op =>
  match op with
  | DrawOp.textOp t _ _ _ _ _ _ _ _ => decide (t = strOf "boom")
  | _ => false

def c7SlideA : Slide :=
  { id := 0,
    content := [SElem.el (strOf "p") [SElem.run (strOf "boom") false false false],
                SElem.el (strOf "p") [SElem.run (strOf "after") false false false]],
    rootImage := none,
    layoutType := none,
    alignment := strOf "center" }

def c7SlideB : Slide :=
  { id := 1,
    content := [SElem.el (strOf "p") [SElem.run (strOf "fine") false false false]],
    rootImage := none,
    layoutType := none,
    alignment := strOf "center" }

/-- Counterexample to the original C7: a single throwing element layout
call (here the `addText` for the paragraph `boom`) is not caught
anywhere, so it aborts its slide, the following element (`after`) and
the whole remaining deck (`c7SlideB`) instead of being recovered
per-element. -/
theorem element_failure_aborts_export :
    serializeDeck c7Oracle (fun _ => 0) (fun _ => 0) [c7SlideA, c7SlideB]
      = Except.error () := by
  rfl

@[simp] theorem isShapeOp_textOp (t : Str) (x y w h fs : ℚ) (b : Bool) (c a : Str) :
    isShapeOp (DrawOp.textOp t x y w h fs b c a) = false := rfl

@[simp] theorem isShapeOp_shapeOp (s : Str) (x y w h : ℚ) (f : Str) :
    isShapeOp (DrawOp.shapeOp s x y w h f) = true := rfl

@[simp] theorem filter_ite (p : DrawOp → Bool) (c : Prop) [Decidable c]
    (A B : List DrawOp) :
    List.filter p (if c then A else B)
      = if c then List.filter p A else List.filter p B := by
  split <;> rfl

/-- C8 (amended): a `compare` element with at least two items is
rendered as two fixed-width side-by-side columns, each led by a colored
header band (`rect` of width `(w − 0.3) / 2`, primary fill on the left,
accent fill on the right).  (The original claim also named
`before-after` and `pros-cons`; those types have no case in
`addElement`'s switch and fall to the generic text path — see
`prosCons_generic_text_cex`.) -/
theorem compare_renders_two_columns (a b : SElem) (rest : List SElem)
    (x y w : ℚ) (cosA sinA : ℚ → ℚ) :
    ((addElementOps cosA sinA (SElem.el (strOf "compare") (a :: b :: rest))
        x y w).1).filter isShapeOp =
      [DrawOp.shapeOp (strOf "rect") x y ((w - 0.3) / 2) 0.5 THEME.primary,
       DrawOp.shapeOp (strOf "rect") (x + ((w - 0.3) / 2 + 0.3)) y
         ((w - 0.3) / 2) 0.5 THEME.accent] := by
  have hd : addElementOps cosA sinA (SElem.el (strOf "compare") (a :: b :: rest)) x y w
      = addCompare (SElem.el (strOf "compare") (a :: b :: rest)) x y w := rfl
  rw [hd, addCompare]
  dsimp only [childrenOf, Option.getD]
  rw [compareColumn, compareColumn]
  simp [List.filter_append]

/-- The pros-cons element of the C8 counterexample, with two columns of
content. -/
def c8ProsCons : SElem :=
  SElem.el (strOf "pros-cons")
    [SElem.el (strOf "p") [SElem.run (strOf "good") false false false],
     SElem.el (strOf "p") [SElem.run (strOf "bad") false false false]]

/-- Counterexample to the original C8: a `pros-cons` element has no case
in `addElement`'s switch; it is rendered as one generic text block
(all its text joined) with no column header bands at all. -/
theorem prosCons_generic_text_cex :
    (addElementOps (fun _ => 0) (fun _ => 0) c8ProsCons 1 1 8).1
        = [DrawOp.textOp (strOf "good bad") 1 1 8 0.5 14 false THEME.text []] ∧
    ((addElementOps (fun _ => 0) (fun _ => 0) c8ProsCons 1 1 8).1).filter isShapeOp
        = [] := by
  exact ⟨rfl, rfl⟩

/-- The `data` field of a chart slide element. -/
def chartData : SElem → List ChartPoint
  | SElem.chart _ d _ => d
  | _ => []

theorem chartTypeName_cases (ct : Str) :
    chartTypeName ct = strOf "pie-chart" ∨ chartTypeName ct = strOf "bar-chart" ∨
    chartTypeName ct = strOf "area-chart" ∨ chartTypeName ct = strOf "radar-chart" ∨
    chartTypeName ct = strOf "scatter-chart" ∨ chartTypeName ct = strOf "line-chart" := by
  rw [chartTypeName]
  split_ifs <;> simp

/-- C9: a `CHART` element keeps its data points across parsing — one
point per `DATA` child, `{x, y}` pairs (from the `X`/`Y` children) when
the chart type is `scatter`, `{label, value}` pairs (from the
`LABEL`/`VALUE` children) otherwise — and serializing the resulting
chart element does not fail but takes the generic extract-all-text
path of `addElement`, which draws no chart geometry at all (the chart's
only child is an empty run, so the fallback emits nothing and leaves
the cursor unmoved). -/
theorem chart_data_preserved_serializer_fallback (n : XMLNode) (x y w : ℚ)
    (cosA sinA : ℚ → ℚ) :
    (chartData (createChart n) =
      if toLowerS (if getAttrD n.attributes (strOf "charttype") ≠ []
          then getAttrD n.attributes (strOf "charttype") else strOf "bar")
          = strOf "scatter" then
        (n.children.filter (fun c => toUpperS c.tag == strOf "DATA")).map (fun d =>
          ChartPoint.xy (dataFieldOf d (strOf "X") (strOf "0"))
            (dataFieldOf d (strOf "Y") (strOf "0")))
      else
        (n.children.filter (fun c => toUpperS c.tag == strOf "DATA")).map (fun d =>
          ChartPoint.lv (dataFieldOf d (strOf "LABEL") [])
            (dataFieldOf d (strOf "VALUE") (strOf "0")))) ∧
    (chartData (createChart n)).length
        = (n.children.filter (fun c => toUpperS c.tag == strOf "DATA")).length ∧
    addElementOps cosA sinA (createChart n) x y w = ([], y) := by
  refine ⟨?_, ?_, ?_⟩
  · simp only [createChart, chartData]
    by_cases hlen :
        (n.children.filter (fun c => toUpperS c.tag == strOf "DATA")).length > 0
    · rw [if_pos hlen]
    · rw [if_neg hlen]
      have h0 : n.children.filter (fun c => toUpperS c.tag == strOf "DATA") = [] := by
        cases hF : n.children.filter (fun c => toUpperS c.tag == strOf "DATA") with
        | nil => rfl
        | cons hd tl => rw [hF] at hlen; simp at hlen
      rw [h0]
      simp
  · simp only [createChart, chartData]
    by_cases hlen :
        (n.children.filter (fun c => toUpperS c.tag == strOf "DATA")).length > 0
    · rw [if_pos hlen]
      split_ifs <;> simp
    · rw [if_neg hlen]
      simp only [List.length_nil]
      omega
  · simp only [createChart]
    rcases chartTypeName_cases (toLowerS (if getAttrD n.attributes (strOf "charttype") ≠ []
        then getAttrD n.attributes (strOf "charttype") else strOf "bar"))
      with h | h | h | h | h | h <;> rw [h] <;> rfl

/-- Spec-level reading of the content loop of `convertSectionToSlide`:
an `IMG` child contributes nothing, a `DIV` child is unwrapped, any
other child contributes its `processTopLevelNode` conversion. -/
def slideContentOf : List XMLNode → List SElem
  | [] => []
  | child :: rest =>
    (if toUpperS child.tag = strOf "IMG" then []
     else if toUpperS child.tag = strOf "DIV" then
       child.children.filterMap processTopLevelNode
     else (processTopLevelNode child).toList) ++ slideContentOf rest

/-- Spec-level reading of the root-image selection of
`convertSectionToSlide`: the first `IMG` child with a non-empty `query`
attribute, its `url` taken from `url` falling back to `src`, carrying
the section's layout hint. -/
def firstImgRootOf (layoutType : Option Str) : List XMLNode → Option RootImg
  | [] => none
  | child :: rest =>
    if toUpperS child.tag = strOf "IMG"
        ∧ getAttrD child.attributes (strOf "query") ≠ [] then
      some ⟨getAttrD child.attributes (strOf "query"),
        (if (if getAttrD child.attributes (strOf "url") ≠ []
             then getAttrD child.attributes (strOf "url")
             else getAttrD child.attributes (strOf "src")) ≠ []
         then some (if getAttrD child.attributes (strOf "url") ≠ []
             then getAttrD child.attributes (strOf "url")
             else getAttrD child.attributes (strOf "src"))
         else none),
        layoutType⟩
    else firstImgRootOf layoutType rest

theorem convertChildStep_foldl (lt : Option Str) :
    ∀ (children : List XMLNode) (acc1 : List SElem) (r : Option RootImg),
      List.foldl (convertChildStep lt) (acc1, r) children
        = (acc1 ++ slideContentOf children, r.or (firstImgRootOf lt children)) := by
  intro children
  induction children with
  | nil =>
    intro acc1 r
    rw [List.foldl_nil, slideContentOf, firstImgRootOf]
    cases r <;> simp [Option.or]
  | cons child rest ih =>
    intro acc1 r
    rw [List.foldl_cons, slideContentOf, firstImgRootOf, convertChildStep]
    by_cases himg : toUpperS child.tag = strOf "IMG"
    · by_cases hq : getAttrD child.attributes (strOf "query") = []
      · simp [himg, hq, ih, Option.or]
      · cases r with
        | none => simp [himg, hq, ih, Option.or]
        | some r0 => simp [himg, hq, ih, Option.or]
    · rw [if_neg himg, if_neg himg]
      by_cases hdiv : toUpperS child.tag = strOf "DIV"
      · rw [if_pos hdiv, if_pos hdiv, ih]
        simp [himg, Option.or]
      · rw [if_neg hdiv, if_neg hdiv]
        cases hp : processTopLevelNode child with
        | some e =>
          rw [ih]
          simp [himg, hp, Option.or]
        | none =>
          rw [ih]
          simp [himg, hp, Option.or]

/-- C10: when a section string parses to a `SECTION` node, the resulting
slide's content is exactly the non-`IMG` children's conversions (every
top-level `IMG` child is dropped from the element list), and its root
image is the first top-level `IMG` child with a non-empty `query`
attribute — `url` from its `url` or `src` attribute, layout hint
inherited from the section. -/
theorem section_img_children_become_rootImage (st : ParserState) (s : Str)
    (n : XMLNode) (h : sectionNodeOf s = some n) :
    ((convertSectionToSlide st s).1).content = slideContentOf n.children ∧
    ((convertSectionToSlide st s).1).rootImage
      = firstImgRootOf (sectionLayoutOf n) n.children := by
  rw [convertSectionToSlide, h]
  have hfold := convertChildStep_foldl (sectionLayoutOf n) n.children [] none
  rcases hfp : sectionFingerprint n with _ | f
  all_goals dsimp only
  all_goals rw [hfold]
  all_goals simp [Option.or]

/-- Concrete section markup of the C10 witness: two top-level `IMG`
children around a paragraph; the first carries `query` and `url`, the
second `query` and `src`. -/
def c10Str : Str :=
  strOf "<SECTION layout=\"left\"><IMG query=\"sunset beach\" url=\"u1\"></IMG><P>hello</P><IMG query=\"mountain view\" src=\"u2\"></IMG></SECTION>"

def c10Node : XMLNode := (sectionNodeOf c10Str).getD rootNodeInit

set_option maxHeartbeats 1000000 in
set_option maxRecDepth 4096 in
theorem section_img_children_become_rootImage_witness :
    sectionNodeOf c10Str = some c10Node ∧
    (((convertSectionToSlide initialState c10Str).1).content
        = slideContentOf c10Node.children ∧
     ((convertSectionToSlide initialState c10Str).1).rootImage
        = firstImgRootOf (sectionLayoutOf c10Node) c10Node.children) :=
  ⟨rfl, section_img_children_become_rootImage initialState c10Str c10Node rfl⟩
